import Mathlib

/-!
Shallow embedding of the core (non-GUI) logic of `manager.py` from the
`nds_game_db` repository, together with theorems checking the repository's
natural-language specification against it.

Conventions of the embedding:
* Python byte strings are `List Nat` (each element < 256 where it matters).
* Python `str` is Lean `String`.  The Python string operations used by the
  code (`upper`, `lower`, `\w` of `re`) are embedded with their ASCII
  semantics, which is exact on the ASCII strings the program manipulates
  (game ids and maker codes come from an `ascii`-codec decode, regions from
  a fixed combo-box list, ids from `uuid4` hex).
* Filesystem and network effects are passed in explicitly: the result of
  opening a zip archive is an `Except` value, the existence checks and the
  possibility of an I/O error while packing are boolean oracles.
* `uuid.uuid4()` is an external source of randomness; the generated id is a
  parameter of the corresponding constructor.
-/

namespace NDSGameDB

/-- `os.path.basename` (and `pathlib.Path(...).name`): the part of the
path after the last separator. -/
def osBasename (p : String) : String :=
  String.mk ((p.toList.reverse.takeWhile (fun c => c ≠ '/')).reverse)

/-- The stem part of `os.path.splitext` (also `pathlib`'s stem for a bare
name): split at the last dot, except that dots leading the name do not
count as an extension separator. -/
def splitextStem (filename : String) : String :=
  let cs := filename.toList
  let lead := (cs.takeWhile (fun c => c = '.')).length
  let body := cs.drop lead
  match (body.reverse.findIdx? (fun c => c = '.')) with
  | some j => String.mk (cs.take (lead + (body.length - 1 - j)))
  | none => filename

/-- `pathlib.PurePath(name).suffix` of a bare file name: everything after
the stem. -/
def pathSuffix (name : String) : String :=
  let base := osBasename name
  String.mk (base.toList.drop (splitextStem base).toList.length)

/-- Python `str.lower()`, embedded character-wise at the code-point
level (exact on the ASCII strings the program handles). -/
def strLower (s : String) : String :=
  String.mk (s.toList.map Char.toLower)

/-- Python slicing `s[:n]`: the first `n` code points. -/
def strTake (s : String) (n : Nat) : String :=
  String.mk (s.toList.take n)

/-- Python `re` word character `\w`, restricted to ASCII where it is
exactly letter, digit or underscore. -/
def pyIsWordChar (c : Char) : Bool :=
  c.isAlphanum || c = '_'

/-- `sanitize_filename` (manager.py lines 30-34): spaces to underscores,
drop every character not matching `[\w.-]`, truncate to 100 characters,
lowercase. -/
def sanitize_filename (text : String) : String :=
  let s := text.toList.map (fun c => if c = ' ' then '_' else c)
  let s := s.filter (fun c => pyIsWordChar c || c = '.' || c = '-')
  let s := s.take 100
  String.mk (s.map Char.toLower)

/-- `bytes.decode('ascii', errors='ignore')`: keep only bytes below 0x80,
each becoming the character with the same code point. -/
def asciiDecodeIgnore (bs : List Nat) : String :=
  String.mk ((bs.filter (fun b => b < 128)).map (fun b => Char.ofNat b))

/-- Python `str.strip('\x00')`: remove NUL characters from both ends. -/
def stripNul (s : String) : String :=
  let cs := s.toList.dropWhile (fun c => c = '\x00')
  String.mk ((cs.reverse.dropWhile (fun c => c = '\x00')).reverse)

/-- The 26-entry game-id letter to region table inlined in
`NDSExtractor.extract_info` (manager.py lines 69-75). -/
def game_id_region_map : List (Char × String) :=
  [('A', "ANY"), ('B', "ANY"), ('C', "CHI"), ('D', "EUR"), ('E', "USA"),
   ('F', "EUR"), ('G', "ANY"), ('H', "EUR"), ('I', "EUR"), ('J', "JPN"),
   ('K', "ANY"), ('L', "USA"), ('M', "EUR"), ('N', "EUR"), ('O', "ANY"),
   ('P', "EUR"), ('Q', "EUR"), ('R', "RU"), ('S', "ES"), ('T', "USA"),
   ('U', "AUS"), ('V', "EUR"), ('W', "EUR"), ('X', "EUR"), ('Y', "EUR"),
   ('Z', "EUR")]

/-- Region resolution from a game id (manager.py lines 77-80): `ANY` for
ids shorter than 4 characters, otherwise a lookup of the uppercased 4th
character with default `ANY`. -/
def region_from_game_id (game_id : String) : String :=
  if 4 ≤ game_id.toList.length then
    match game_id.toList[3]? with
    | some c => (game_id_region_map.lookup c.toUpper).getD "ANY"
    | none => "ANY"
  else "ANY"

/-- Result record of `NDSExtractor.extract_info` (the `icon` field is
always `None` in the source and is omitted). -/
structure NDSInfo where
  title : String
  filename : String
  filesize : Nat
  game_id : String
  maker_code : String
  rom_version : Nat
  region_from_rom : String
deriving Repr, DecidableEq

/-- `NDSExtractor.extract_info` (manager.py lines 49-86) on the bytes of
the file.  `header[0x1E]` raises `IndexError` when the file holds fewer
than 0x1F bytes; every other step is total. -/
def extract_info (fileBytes : List Nat) (filepath : String) : Except String NDSInfo :=
  let filename := osBasename filepath
  let filesize := fileBytes.length
  let header := fileBytes.take 0x200
  let title0 := stripNul (asciiDecodeIgnore (header.take 0x0C))
  let title := if title0 = "" then splitextStem filename else title0
  let game_id := stripNul (asciiDecodeIgnore ((header.drop 0x0C).take 4))
  let maker_code := stripNul (asciiDecodeIgnore ((header.drop 0x12).take 2))
  match header[0x1E]? with
  | none => .error "IndexError: index out of range"
  | some b =>
    .ok { title := title, filename := filename, filesize := filesize,
          game_id := game_id, maker_code := maker_code, rom_version := b,
          region_from_rom := region_from_game_id game_id }

/-! ## Data model: `RomVersion` and `GameEntry` dataclasses -/

/-- The `RomVersion` dataclass (manager.py lines 88-104), fields in source
order.  The `id` default `str(uuid.uuid4())` is external randomness and is
supplied by the caller of the constructor embeddings below. -/
structure RomVersion where
  id : String
  region : String := "ANY"
  version : String := ""
  download_url : String := ""
  filename : String := ""
  internal_rom_filename : String := ""
  filesize : String := "0"
  icon_url : String := ""
  game_id : String := ""
  extracted_region_from_rom : String := "ANY"
  internal_file_id : String := ""
deriving Repr, DecidableEq

/-- `RomVersion.__post_init__`: when `internal_file_id` is empty it is
computed as the sanitized `"{game_id}_{region}_{id[:8]}"`.  Python runs
this at every construction, so the embeddings of the constructor call
sites all go through this function. -/
def RomVersion.postInit (rv : RomVersion) : RomVersion :=
  if rv.internal_file_id = "" then
    { rv with internal_file_id :=
        sanitize_filename (rv.game_id ++ "_" ++ rv.region ++ "_" ++ strTake rv.id 8) }
  else rv

/-- The `GameEntry` dataclass (manager.py lines 116-123), fields in source
order. -/
structure GameEntry where
  id : String
  name : String := ""
  creator : String := ""
  platform : String := "nds"
  game_id : String := ""
  rom_versions : List RomVersion := []
deriving Repr, DecidableEq

/-! ## Persistence records (`to_dict` / `from_dict`)

`asdict` produces a JSON object per dataclass; `json.dump`/`json.load`
round-trip such objects faithfully, so the embedding works directly on the
record values.  Fields that `from_dict` reads with a default
(`data.get('internal_rom_filename', "")`, `data.pop('rom_versions', [])`)
are `Option`-valued in the record so that their absence is representable. -/

/-- The dictionary produced by `RomVersion.to_dict`, with
`internal_rom_filename` optional because `RomVersion.from_dict` defaults
it when missing. -/
structure RomVersionRecord where
  id : String
  region : String
  version : String
  download_url : String
  filename : String
  internal_rom_filename : Option String
  filesize : String
  icon_url : String
  game_id : String
  extracted_region_from_rom : String
  internal_file_id : String
deriving Repr, DecidableEq

/-- `RomVersion.to_dict` (manager.py lines 106-107): `asdict(self)`. -/
def RomVersion.to_dict (rv : RomVersion) : RomVersionRecord :=
  { id := rv.id, region := rv.region, version := rv.version,
    download_url := rv.download_url, filename := rv.filename,
    internal_rom_filename := some rv.internal_rom_filename,
    filesize := rv.filesize, icon_url := rv.icon_url, game_id := rv.game_id,
    extracted_region_from_rom := rv.extracted_region_from_rom,
    internal_file_id := rv.internal_file_id }

/-- `RomVersion.from_dict` (manager.py lines 109-114): default the
`internal_rom_filename` key, then `cls(**data)`, which runs
`__post_init__`. -/
def RomVersion.from_dict (r : RomVersionRecord) : RomVersion :=
  RomVersion.postInit
    { id := r.id, region := r.region, version := r.version,
      download_url := r.download_url, filename := r.filename,
      internal_rom_filename := r.internal_rom_filename.getD "",
      filesize := r.filesize, icon_url := r.icon_url, game_id := r.game_id,
      extracted_region_from_rom := r.extracted_region_from_rom,
      internal_file_id := r.internal_file_id }

/-- The dictionary produced by `GameEntry.to_dict`, with `rom_versions`
optional because `GameEntry.from_dict` pops it with default `[]`. -/
structure GameEntryRecord where
  id : String
  name : String
  creator : String
  platform : String
  game_id : String
  rom_versions : Option (List RomVersionRecord)
deriving Repr, DecidableEq

/-- `GameEntry.to_dict` (manager.py lines 125-128). -/
def GameEntry.to_dict (ge : GameEntry) : GameEntryRecord :=
  { id := ge.id, name := ge.name, creator := ge.creator,
    platform := ge.platform, game_id := ge.game_id,
    rom_versions := some (ge.rom_versions.map RomVersion.to_dict) }

/-- `GameEntry.from_dict` (manager.py lines 130-135). -/
def GameEntry.from_dict (r : GameEntryRecord) : GameEntry :=
  { id := r.id, name := r.name, creator := r.creator, platform := r.platform,
    game_id := r.game_id,
    rom_versions := (r.rom_versions.getD []).map RomVersion.from_dict }

/-- The JSON body written by `NDSDatabaseManager.save_database`
(manager.py lines 1738-1741): the entry dictionaries in catalog order. -/
def save_database (entries : List GameEntry) : List GameEntryRecord :=
  entries.map GameEntry.to_dict

/-- The decoding step of `NDSDatabaseManager.load_database` (manager.py
line 1693): `[GameEntry.from_dict(d) for d in data]`. -/
def load_database_decode (records : List GameEntryRecord) : List GameEntry :=
  records.map GameEntry.from_dict

/-! ## GameTDB cover search (`ImageLoader.search_gametdb_cover`) -/

/-- The game-id letter to GameTDB language table inlined in
`ImageLoader.search_gametdb_cover` (manager.py lines 225-231).  It differs
from `game_id_region_map` only at `Q`. -/
def game_id_to_gametdb_lang_map : List (Char × String) :=
  [('A', "ANY"), ('B', "ANY"), ('C', "CHI"), ('D', "EUR"), ('E', "USA"),
   ('F', "EUR"), ('G', "ANY"), ('H', "EUR"), ('I', "EUR"), ('J', "JPN"),
   ('K', "ANY"), ('L', "USA"), ('M', "EUR"), ('N', "EUR"), ('O', "ANY"),
   ('P', "EUR"), ('Q', "DA"), ('R', "RU"), ('S', "ES"), ('T', "USA"),
   ('U', "AUS"), ('V', "EUR"), ('W', "EUR"), ('X', "EUR"), ('Y', "EUR"),
   ('Z', "EUR")]

/-- The `fallback_langs` list exactly as written at manager.py line 239,
including the `" "` entry that sits between `"CH"` and `"AU"`. -/
def fallback_langs : List String :=
  ["EN", "US", "FR", "DE", "ES", "IT", "NL", "PT", "JA", "CH", " ", "AU",
   "SE", "DA", "NO", "FI", "TR", "KO", "ZH", "RU", "MX", "CA"]

/-- Appending each element not already present, in order: the
`for lang in fallback_langs: if lang not in lang_order: append` loop. -/
def dedupAppend (start : List String) (langs : List String) : List String :=
  langs.foldl (fun acc lang => if lang ∈ acc then acc else acc ++ [lang]) start

/-- The candidate language order tried by `search_gametdb_cover`
(manager.py lines 233-242): the primary language from the 4th game-id
letter (default `"EN"`), then the fallback list deduplicated preserving
order. -/
def lang_order (game_id : String) : List String :=
  let primary_lang :=
    if 4 ≤ game_id.toList.length then
      match game_id.toList[3]? with
      | some c => (game_id_to_gametdb_lang_map.lookup c.toUpper).getD "EN"
      | none => "EN"
    else "EN"
  dedupAppend [primary_lang] fallback_langs

/-- The cover URL template of manager.py line 249. -/
def gametdb_url (lang game_id : String) : String :=
  "https://art.gametdb.com/ds/coverS/" ++ lang ++ "/" ++ game_id ++ ".png"

/-- `ImageLoader.search_gametdb_cover` (manager.py lines 219-267), reduced
to its pure search result.  `headOk url` is true when the `HEAD` request
for `url` returns status 200; a request exception or any other status
makes the loop continue, which the boolean already expresses.  An empty
game id returns early with no result; otherwise the first candidate whose
`HEAD` succeeds wins. -/
def search_gametdb_cover (headOk : String → Bool) (game_id : String) : Option String :=
  if game_id = "" then none
  else
    ((lang_order game_id).find? (fun lang => headOk (gametdb_url lang game_id))).map
      (fun lang => gametdb_url lang game_id)

/-! ## Catalog operations -/

/-- The variant construction shared by `add_to_database` (manager.py lines
1155-1180) and `AddRegionalRomDialog.accept_entry` (lines 586-612): build
the `RomVersion` (running `__post_init__`), then assign `download_url`,
`filename`, `filesize` and `icon_url` from the results of packing and of
the cover lookup. -/
def buildIngestVariant (uuid region version game_id extracted_region internal_rom_filename : String)
    (rom_relative_path zip_filename filesize cover_url : String) : RomVersion :=
  let rv := RomVersion.postInit
    { id := uuid, region := region, version := version, download_url := "",
      filename := "", internal_rom_filename := internal_rom_filename,
      filesize := "0", icon_url := "", game_id := game_id,
      extracted_region_from_rom := extracted_region, internal_file_id := "" }
  { rv with download_url := rom_relative_path, filename := zip_filename,
            filesize := filesize, icon_url := cover_url }

/-- Append a variant to the first entry whose `game_id` matches: the
mutation performed on the entry found by
`next((ge for ge in self.entries if ge.game_id == ...), None)`. -/
def appendVariantToFirstMatch : List GameEntry → RomVersion → List GameEntry
  | [], _ => []
  | ge :: rest, rv =>
    if ge.game_id = rv.game_id then
      { ge with rom_versions := ge.rom_versions ++ [rv] } :: rest
    else
      ge :: appendVariantToFirstMatch rest rv

/-- The catalog mutation of `NDSDatabaseManager.add_to_database`
(manager.py lines 1182-1196): append the new variant to the existing entry
with the same `game_id`, or append a fresh single-variant entry.
`new_entry_id` embeds the `uuid4` default of the new `GameEntry`. -/
def add_to_database (entries : List GameEntry) (rv : RomVersion)
    (new_entry_id name creator platform : String) : List GameEntry :=
  if entries.any (fun ge => ge.game_id = rv.game_id) then
    appendVariantToFirstMatch entries rv
  else
    entries ++ [{ id := new_entry_id, name := name, creator := creator,
                  platform := platform, game_id := rv.game_id,
                  rom_versions := [rv] }]

/-- `NDSDatabaseManager.add_new_regional_rom` (manager.py lines 1381-1387):
append the dialog's new variant to the entry selected by its `id`. -/
def add_new_regional_rom : List GameEntry → String → RomVersion → List GameEntry
  | [], _, _ => []
  | ge :: rest, entry_id, rv =>
    if ge.id = entry_id then
      { ge with rom_versions := ge.rom_versions ++ [rv] } :: rest
    else
      ge :: add_new_regional_rom rest entry_id rv

/-- `NDSDatabaseManager.delete_selected_game` (manager.py lines 1486-1490):
remove the first entry with the selected `id` (artifact deletion is a
filesystem effect outside the catalog state). -/
def delete_selected_game (entries : List GameEntry) (entry_id : String) : List GameEntry :=
  entries.eraseP (fun ge => ge.id = entry_id)

/-- `NDSDatabaseManager.delete_selected_regional_rom` (manager.py lines
1515-1546): in the first entry holding a variant with the selected id,
remove that variant; if the entry is left without variants, remove the
entry itself. -/
def delete_selected_regional_rom : List GameEntry → String → List GameEntry
  | [], _ => []
  | ge :: rest, vid =>
    if ge.rom_versions.any (fun rv => rv.id = vid) then
      let remaining := ge.rom_versions.eraseP (fun rv => rv.id = vid)
      if remaining.isEmpty then rest
      else { ge with rom_versions := remaining } :: rest
    else
      ge :: delete_selected_regional_rom rest vid

/-- Update the first variant with the given id in a variant list. -/
def updateFirstVariant : List RomVersion → String → (RomVersion → RomVersion) → List RomVersion
  | [], _, _ => []
  | rv :: rest, vid, f =>
    if rv.id = vid then f rv :: rest
    else rv :: updateFirstVariant rest vid f

/-- The field assignment that `EditDialog.get_updated_rom_version`
performs on the selected variant (manager.py lines 372-378), with
`new_icon` the final `icon_url` value after the cover bookkeeping of lines
1429-1438. -/
def editUpdate (new_region new_version new_icon : String) (rv : RomVersion) : RomVersion :=
  { rv with region := new_region, version := new_version, icon_url := new_icon }

/-- `NDSDatabaseManager.edit_selected_regional_rom` (manager.py lines
1402-1444) restricted to its catalog effect: the `EditDialog` assigns
`region`, `version` and `icon_url` on the selected variant in place. -/
def edit_selected_regional_rom : List GameEntry → String → String → String → String → List GameEntry
  | [], _, _, _, _ => []
  | ge :: rest, vid, new_region, new_version, new_icon =>
    if ge.rom_versions.any (fun rv => rv.id = vid) then
      { ge with rom_versions :=
          updateFirstVariant ge.rom_versions vid (editUpdate new_region new_version new_icon) } :: rest
    else
      ge :: edit_selected_regional_rom rest vid new_region new_version new_icon

/-! ## Archive packing and unpacking (`FileManager`) -/

deriving instance DecidableEq for Except

/-- One member of a zip archive.  `content` is the outcome of extracting
it: `.error` stands for any exception raised by `zip_ref.extract` or by
the subsequent `os.path.getsize` on that member. -/
structure ZipEntry where
  name : String
  content : Except String (List Nat)
deriving Repr, DecidableEq

/-- `FileManager.copy_and_zip_rom_file` (manager.py lines 639-652): write
a single-member archive named `{file_identifier}.zip` holding the source
bytes under the source's base filename; return the JSON-relative path, the
on-disk filename, and (in the embedding) the archive that was written.
An I/O failure re-raises; the success path is modelled here and the
failure possibility is the `packOk` oracle of the repack worker below. -/
def copy_and_zip_rom_file (nds_path : String) (content : List Nat)
    (file_identifier : String) : String × String × List ZipEntry :=
  let zip_filename := file_identifier ++ ".zip"
  ("assets/roms/" ++ zip_filename, zip_filename,
   [{ name := osBasename nds_path, content := .ok content }])

/-- The extension filter of manager.py line 712:
`f.lower().endswith(('.nds', '.dsi'))`. -/
def isRomName (n : String) : Bool :=
  ".nds".toList.isSuffixOf (strLower n).toList || ".dsi".toList.isSuffixOf (strLower n).toList

/-- The selection loop of `unpack_zip_rom` (manager.py lines 717-728):
extract each candidate member, keep the largest so far (strictly larger
replaces), remove the others.  An extraction error propagates. -/
def selectLargest : List ZipEntry → Option (String × List Nat) →
    Except String (Option (String × List Nat))
  | [], best => .ok best
  | e :: rest, best =>
    match e.content with
    | .error msg => .error msg
    | .ok bytes =>
      let keep :=
        match best with
        | none => some (osBasename e.name, bytes)
        | some (bn, bb) =>
          if bb.length < bytes.length then some (osBasename e.name, bytes)
          else some (bn, bb)
      selectLargest rest keep

/-- `FileManager.unpack_zip_rom` (manager.py lines 706-734).  The argument
is the outcome of `zipfile.ZipFile(zip_filepath, 'r')`: `.error` for an
unreadable or corrupt archive.  The whole body sits in one
`try/except Exception`, so every failure — including one inside the
extraction loop — is logged and turned into `None`, exactly like a
well-formed archive with no `.nds`/`.dsi` member.  The `some` result is
the base name and bytes of the extracted file the function returns. -/
def unpack_zip_rom (openResult : Except String (List ZipEntry)) :
    Option (String × List Nat) :=
  match openResult with
  | .error _ => none
  | .ok entries =>
    let nds_files_in_zip := entries.filter (fun e => isRomName e.name)
    if nds_files_in_zip.isEmpty then none
    else
      match selectLargest nds_files_in_zip none with
      | .error _ => none
      | .ok best => best

/-! ## Bulk repack (`CompressionWorker.run`) -/

/-- The filesystem and I/O environment of one `CompressionWorker.run`
invocation.  `zipExists key` and `legacyExists name` are the two
`.exists()` checks of the scanning phase (lines 757-776); `existsAtPack
name` is the re-check at line 794 just before packing; `packOk key` tells
whether `copy_and_zip_rom_file` succeeds or raises for that key; `zipSize
key` is the `os.path.getsize` of the produced archive. -/
structure RepackEnv where
  zipExists : String → Bool
  legacyExists : String → Bool
  existsAtPack : String → Bool
  packOk : String → Bool
  zipSize : String → Nat

/-- The scanning-phase qualification of one variant (manager.py lines
756-779): the cleaned legacy file name exists in `roms_dir` with a
`.nds`/`.dsi` suffix, and the `{internal_file_id}.zip` archive does not
exist yet. -/
def qualifiesForRepack (env : RepackEnv) (rv : RomVersion) : Bool :=
  let clean := osBasename rv.filename
  env.legacyExists clean &&
    (strLower (pathSuffix clean) = ".nds" || strLower (pathSuffix clean) = ".dsi") &&
    !env.zipExists rv.internal_file_id

/-- The metadata update applied after a successful pack (manager.py lines
801-810). -/
def repackOne (env : RepackEnv) (rv : RomVersion) : RomVersion :=
  { rv with download_url := "assets/roms/" ++ rv.internal_file_id ++ ".zip",
            filename := rv.internal_file_id ++ ".zip",
            filesize := toString (env.zipSize rv.internal_file_id) }

/-- The packing loop of `CompressionWorker.run` (lines 789-819) over the
variants of one entry, threading the abort flag.  The whole loop runs
inside a single `try`, so the first exception raised by
`copy_and_zip_rom_file` leaves the loop: every later variant is returned
untouched and the worker reports failure.  A qualifying variant whose
legacy file has disappeared by pack time is skipped (`continue`).  Returns
the updated variants, the number packed, and the abort flag. -/
def runVariants (env : RepackEnv) : List RomVersion → Bool → List RomVersion × Nat × Bool
  | [], aborted => ([], 0, aborted)
  | rv :: rest, aborted =>
    if aborted then (rv :: rest, 0, true)
    else if qualifiesForRepack env rv then
      if env.existsAtPack (osBasename rv.filename) then
        if env.packOk rv.internal_file_id then
          let r := runVariants env rest false
          (repackOne env rv :: r.1, r.2.1 + 1, r.2.2)
        else (rv :: rest, 0, true)
      else
        let r := runVariants env rest false
        (rv :: r.1, r.2.1, r.2.2)
    else
      let r := runVariants env rest false
      (rv :: r.1, r.2.1, r.2.2)

/-- `CompressionWorker.run` (manager.py lines 746-819) over the catalog:
scanning collects the qualifying variants in catalog order and the packing
loop processes them in that same order, so the two phases fuse into one
ordered pass; the `aborted` flag carries the single `try/except` across
entries.  Returns the updated entries, the number of variants packed, and
`success` (`True` exactly when no pack raised). -/
def CompressionWorker.run (env : RepackEnv) :
    List GameEntry → Bool → List GameEntry × Nat × Bool
  | [], aborted => ([], 0, aborted)
  | ge :: rest, aborted =>
    let r := runVariants env ge.rom_versions aborted
    let rr := CompressionWorker.run env rest r.2.2
    ({ ge with rom_versions := r.1 } :: rr.1, r.2.1 + rr.2.1, rr.2.2)

/-- The batch result as the caller sees it: new catalog, packed count,
and the `success` boolean of the `compression_finished` signal. -/
def bulk_repack (env : RepackEnv) (entries : List GameEntry) :
    List GameEntry × Nat × Bool :=
  let r := CompressionWorker.run env entries false
  (r.1, r.2.1, !r.2.2)

/-! ## Reachable catalog states

The public catalog operations: ingesting a ROM (`add_to_database`),
adding a regional variant to an entry (`add_new_regional_rom`), deleting a
whole game, deleting one variant, editing a variant, and the bulk repack.
Every variant entering the catalog is built by `buildIngestVariant`, i.e.
through the `RomVersion` constructor and its `__post_init__`. -/
inductive Reachable : List GameEntry → Prop where
  | empty : Reachable []
  | ingest {es} (uuid region version game_id extracted_region irf rrp zf fs cover
        new_entry_id name creator platform : String) :
      Reachable es →
      Reachable (add_to_database es
        (buildIngestVariant uuid region version game_id extracted_region irf rrp zf fs cover)
        new_entry_id name creator platform)
  | addRegional {es} (entry_id uuid region version game_id extracted_region irf rrp zf fs cover : String) :
      Reachable es →
      Reachable (add_new_regional_rom es entry_id
        (buildIngestVariant uuid region version game_id extracted_region irf rrp zf fs cover))
  | deleteGame {es} (entry_id : String) :
      Reachable es → Reachable (delete_selected_game es entry_id)
  | deleteVariant {es} (vid : String) :
      Reachable es → Reachable (delete_selected_regional_rom es vid)
  | editVariant {es} (vid new_region new_version new_icon : String) :
      Reachable es →
      Reachable (edit_selected_regional_rom es vid new_region new_version new_icon)
  | repack {es} (env : RepackEnv) :
      Reachable es → Reachable (bulk_repack env es).1

/-! ## Spec-side definitions for refinement comparisons

These two definitions transcribe the SPEC's wording (not the code) and
exist only to be compared against the embeddings above. -/

/-- The region table exactly as §4.2 of the spec lists it:
`A,B,G,K,O→ANY; C→CHI; D,F,H,I,M,N,P,V,W,X,Y,Z→EUR; E,L,T→USA; J→JPN;
Q→DA (or EUR, see design note); R→RU; S→ES; U→AUS`, taking the `Q→EUR`
option the design note allows, and `ANY` for anything unmapped. -/
def spec_region_table (c : Char) : String :=
  if c = 'A' ∨ c = 'B' ∨ c = 'G' ∨ c = 'K' ∨ c = 'O' then "ANY"
  else if c = 'C' then "CHI"
  else if c = 'D' ∨ c = 'F' ∨ c = 'H' ∨ c = 'I' ∨ c = 'M' ∨ c = 'N' ∨ c = 'P' ∨
      c = 'V' ∨ c = 'W' ∨ c = 'X' ∨ c = 'Y' ∨ c = 'Z' then "EUR"
  else if c = 'E' ∨ c = 'L' ∨ c = 'T' then "USA"
  else if c = 'J' then "JPN"
  else if c = 'Q' then "EUR"
  else if c = 'R' then "RU"
  else if c = 'S' then "ES"
  else if c = 'U' then "AUS"
  else "ANY"

/-- Region resolution as the spec words it: `ANY` below 4 characters,
otherwise the table at the uppercased 4th character. -/
def spec_resolve (game_id : String) : String :=
  if game_id.toList.length < 4 then "ANY"
  else
    match game_id.toList[3]? with
    | some c => spec_region_table c.toUpper
    | none => "ANY"

/-- The fallback language sequence exactly as the spec lists it (21
entries, without the stray `" "` the code carries between `"CH"` and
`"AU"`). -/
def claimed_fallback_langs : List String :=
  ["EN", "US", "FR", "DE", "ES", "IT", "NL", "PT", "JA", "CH", "AU",
   "SE", "DA", "NO", "FI", "TR", "KO", "ZH", "RU", "MX", "CA"]

/-- The candidate language order as the claim words it: primary language
from the 4th game-id letter, then the 21-entry fallback sequence with
duplicates removed preserving order. -/
def claimed_lang_order (game_id : String) : List String :=
  let primary_lang :=
    if 4 ≤ game_id.toList.length then
      match game_id.toList[3]? with
      | some c => (game_id_to_gametdb_lang_map.lookup c.toUpper).getD "EN"
      | none => "EN"
    else "EN"
  dedupAppend [primary_lang] claimed_fallback_langs

/-! ## Derived notions for the bulk-repack theorems -/

/-- A variant the packing loop will actually pack if no exception occurs:
it qualified at scan time and its legacy file is still present at pack
time. -/
def packsCleanly (env : RepackEnv) (rv : RomVersion) : Bool :=
  qualifiesForRepack env rv && env.existsAtPack (osBasename rv.filename)

/-- One variant after an exception-free batch: repacked when it packs
cleanly, untouched otherwise. -/
def repackResultVariant (env : RepackEnv) (rv : RomVersion) : RomVersion :=
  if packsCleanly env rv then repackOne env rv else rv

/-- The catalog after an exception-free batch: every cleanly-packing
variant repacked, everything else untouched. -/
def repackResultEntries (env : RepackEnv) (es : List GameEntry) : List GameEntry :=
  es.map (fun ge => { ge with rom_versions := ge.rom_versions.map (repackResultVariant env) })

/-- The number of variants an exception-free batch packs. -/
def packableTotal (env : RepackEnv) (es : List GameEntry) : Nat :=
  (es.map (fun ge => (ge.rom_versions.filter (packsCleanly env)).length)).sum

/-! ## Concrete data for counterexamples and witnesses -/

/-- Two legacy unpacked variants sharing one entry; used to exercise the
bulk repack. -/
def legacyVariantA : RomVersion :=
  { id := "aaaaaaaa-0000-0000-0000-000000000000", region := "USA", version := "1",
    download_url := "assets/roms/a.nds", filename := "a.nds",
    internal_rom_filename := "a.nds", filesize := "100", icon_url := "",
    game_id := "CPUE", extracted_region_from_rom := "USA",
    internal_file_id := "cpue_usa_aaaaaaaa" }

def legacyVariantB : RomVersion :=
  { id := "bbbbbbbb-0000-0000-0000-000000000000", region := "EUR", version := "1",
    download_url := "assets/roms/b.nds", filename := "b.nds",
    internal_rom_filename := "b.nds", filesize := "100", icon_url := "",
    game_id := "CPUP", extracted_region_from_rom := "EUR",
    internal_file_id := "cpup_eur_bbbbbbbb" }

def legacyEntry : GameEntry :=
  { id := "entry-1", name := "Pokemon", creator := "AB", platform := "nds",
    game_id := "CPUE", rom_versions := [legacyVariantA, legacyVariantB] }

/-- Environment for the C1 counterexample: both variants qualify and
their legacy files are present, but packing the first raises (simulated
I/O error) while packing the second would succeed. -/
def failFirstEnv : RepackEnv :=
  { zipExists := fun _ => false, legacyExists := fun _ => true,
    existsAtPack := fun _ => true,
    packOk := fun key => key ≠ "cpue_usa_aaaaaaaa",
    zipSize := fun _ => 42 }

/-- Environment where every pack succeeds but the second variant's legacy
file has vanished between scan and pack: the loop skips it and goes on. -/
def skipSecondEnv : RepackEnv :=
  { zipExists := fun _ => false, legacyExists := fun _ => true,
    existsAtPack := fun name => name ≠ "b.nds",
    packOk := fun _ => true, zipSize := fun _ => 42 }

/-- A second variant with `legacyVariantA`'s cartridge identity but a
fresh id, for the duplicate-game-id ingestion scenario. -/
def legacyVariantA2 : RomVersion :=
  { legacyVariantA with id := "cccccccc-0000-0000-0000-000000000000" }

/-- A minimal well-formed header byte stream: 31 bytes (the least length
the parser accepts), title all NUL, game id `CPUE`, maker `AB`, version
byte 7. -/
def cpueBytes : List Nat :=
  List.replicate 12 0 ++ [67, 80, 85, 69] ++ [0, 0] ++ [65, 66] ++
    List.replicate 10 0 ++ [7]

/-- The parse result of `cpueBytes` under filename `p.nds`. -/
def cpueInfo : NDSInfo :=
  { title := "p", filename := "p.nds", filesize := 31, game_id := "CPUE",
    maker_code := "AB", rom_version := 7, region_from_rom := "USA" }

/-- Character set (as a list, order irrelevant) of the lowercase
hexadecimal alphabet used by `uuid4` hex digits. -/
def uuidHexChars : List Char :=
  ['f', 'e', 'd', 'c', 'b', 'a', '9', '8', '7', '6', '5', '4', '3', '2', '1', '0']

/-- The region options offered by every region combo box in the GUI
(manager.py lines 315, 464, 932). -/
def regionComboOptions : List String :=
  ["ANY", "EUR", "USA", "JPN", "CHI", "AUS"]

/-! ## Supporting lemmas -/

theorem toList_mk (l : List Char) : (String.mk l).toList = l := rfl

theorem toList_append (s t : String) : (s ++ t).toList = s.toList ++ t.toList :=
  String.data_append s t

theorem mk_eq_empty_iff (l : List Char) : String.mk l = "" ↔ l = [] := by
  constructor
  · intro h
    have := congrArg String.toList h
    simpa using this
  · intro h
    simp [h]

theorem toNat_ofNat_of_lt {n : Nat} (h : n < 55296) : (Char.ofNat n).toNat = n := by
  simp [Char.ofNat, Nat.isValidChar, h, Char.ofNatAux, Char.toNat, UInt32.toNat,
    UInt32.ofNatCore]

theorem char_isLower_iff (c : Char) : c.isLower = true ↔ 97 ≤ c.toNat ∧ c.toNat ≤ 122 := by
  have l1 : ((97 : UInt32)).toBitVec.toNat = 97 := rfl
  have l2 : ((122 : UInt32)).toBitVec.toNat = 122 := rfl
  simp [Char.isLower, Char.toNat, UInt32.le_def, BitVec.le_def, UInt32.toNat, l1, l2]

theorem char_isUpper_iff (c : Char) : c.isUpper = true ↔ 65 ≤ c.toNat ∧ c.toNat ≤ 90 := by
  have l1 : ((65 : UInt32)).toBitVec.toNat = 65 := rfl
  have l2 : ((90 : UInt32)).toBitVec.toNat = 90 := rfl
  simp [Char.isUpper, Char.toNat, UInt32.le_def, BitVec.le_def, UInt32.toNat, l1, l2]

theorem char_isDigit_iff (c : Char) : c.isDigit = true ↔ 48 ≤ c.toNat ∧ c.toNat ≤ 57 := by
  have l1 : ((48 : UInt32)).toBitVec.toNat = 48 := rfl
  have l2 : ((57 : UInt32)).toBitVec.toNat = 57 := rfl
  simp [Char.isDigit, Char.toNat, UInt32.le_def, BitVec.le_def, UInt32.toNat, l1, l2]

theorem char_eq_of_toNat {c : Char} {n : Nat} (h : c.toNat = n) : c = Char.ofNat n := by
  have := Char.ofNat_toNat c
  rw [h] at this
  exact this.symm

/-- Every element surviving the regex filter of `sanitize_filename` maps
under `Char.toLower` into the filesystem-safe class `[a-z0-9_.-]`. -/
theorem toLower_of_kept {d : Char} (hd : (pyIsWordChar d || d = '.' || d = '-') = true) :
    (d.toLower.isLower || d.toLower.isDigit || d.toLower = '_' ||
      d.toLower = '.' || d.toLower = '-') = true := by
  have hval : (65 ≤ d.toNat ∧ d.toNat ≤ 90) ∨ (97 ≤ d.toNat ∧ d.toNat ≤ 122) ∨
      (48 ≤ d.toNat ∧ d.toNat ≤ 57) ∨ d.toNat = 95 ∨ d.toNat = 46 ∨ d.toNat = 45 := by
    simp only [pyIsWordChar, Char.isAlphanum, Char.isAlpha, Bool.or_eq_true,
      decide_eq_true_eq] at hd
    rcases hd with ((((h | h) | h) | h) | h) | h
    · exact Or.inl ((char_isUpper_iff d).mp h)
    · exact Or.inr (Or.inl ((char_isLower_iff d).mp h))
    · exact Or.inr (Or.inr (Or.inl ((char_isDigit_iff d).mp h)))
    · subst h
      decide
    · subst h
      decide
    · subst h
      decide
  by_cases hu : 65 ≤ d.toNat ∧ d.toNat ≤ 90
  · have hlow : d.toLower = Char.ofNat (d.toNat + 32) := by
      simp only [Char.toLower, ge_iff_le]
      rw [if_pos hu]
    have hn : (d.toLower).toNat = d.toNat + 32 := by
      rw [hlow, toNat_ofNat_of_lt (by omega)]
    have : d.toLower.isLower = true := (char_isLower_iff _).mpr (by omega)
    simp [this]
  · have hfix : d.toLower = d := by
      simp only [Char.toLower, ge_iff_le]
      rw [if_neg hu]
    rw [hfix]
    rcases hval with h | h | h | h | h | h
    · exact absurd h hu
    · have : d.isLower = true := (char_isLower_iff _).mpr h
      simp [this]
    · have : d.isDigit = true := (char_isDigit_iff _).mpr h
      simp [this]
    · simp [char_eq_of_toNat h]
    · simp [char_eq_of_toNat h]
    · simp [char_eq_of_toNat h]

theorem osBasename_no_sep (p : String) : ∀ c ∈ (osBasename p).toList, c ≠ '/' := by
  intro c hc
  have hmem : c ∈ p.toList.reverse.takeWhile (fun c => c ≠ '/') := by
    have : c ∈ (p.toList.reverse.takeWhile (fun c => c ≠ '/')).reverse := hc
    simpa using this
  have := List.mem_takeWhile_imp hmem
  simpa using this

theorem osBasename_idem (p : String) : osBasename (osBasename p) = osBasename p := by
  unfold osBasename
  congr 1
  rw [toList_mk, List.reverse_reverse]
  have hall : ∀ c ∈ p.toList.reverse.takeWhile (fun c => c ≠ '/'),
      decide (c ≠ '/') = true := by
    intro c hc
    simpa using List.mem_takeWhile_imp hc
  rw [List.takeWhile_eq_self_iff.mpr hall]

theorem sanitize_length_le (s : String) : (sanitize_filename s).toList.length ≤ 100 := by
  unfold sanitize_filename
  rw [toList_mk, List.length_map]
  exact le_trans (List.length_take_le 100 _) (le_refl 100)

theorem mem_sanitize {s : String} {c : Char} (hc : c ∈ (sanitize_filename s).toList) :
    ∃ d, (pyIsWordChar d || d = '.' || d = '-') = true ∧ c = d.toLower := by
  unfold sanitize_filename at hc
  rw [toList_mk] at hc
  obtain ⟨d, hd, hdc⟩ := List.mem_map.mp hc
  refine ⟨d, ?_, hdc.symm⟩
  have hd' := List.mem_of_mem_take hd
  have := List.of_mem_filter hd'
  simpa using this

theorem sanitize_ne_empty {s : String} (h : '_' ∈ s.toList) : sanitize_filename s ≠ "" := by
  unfold sanitize_filename
  rw [Ne, mk_eq_empty_iff]
  intro hempty
  rw [List.map_eq_nil_iff] at hempty
  have hmem : '_' ∈ s.toList.map (fun c => if c = ' ' then '_' else c) := by
    exact List.mem_map.mpr ⟨'_', h, by decide⟩
  have hkeep : '_' ∈ (s.toList.map (fun c => if c = ' ' then '_' else c)).filter
      (fun c => pyIsWordChar c || c = '.' || c = '-') := by
    exact List.mem_filter.mpr ⟨hmem, by decide⟩
  have hlen : 0 < ((s.toList.map (fun c => if c = ' ' then '_' else c)).filter
      (fun c => pyIsWordChar c || c = '.' || c = '-')).length :=
    List.length_pos_of_mem hkeep
  have : ((s.toList.map (fun c => if c = ' ' then '_' else c)).filter
      (fun c => pyIsWordChar c || c = '.' || c = '-')).take 100 = [] := hempty
  rw [List.take_eq_nil_iff] at this
  rcases this with h100 | hnil
  · exact absurd h100 (by decide)
  · rw [hnil] at hlen
    simp at hlen

theorem sanitize_of_all_kept {s : String}
    (hk : ∀ c ∈ s.toList, (pyIsWordChar c || c = '.' || c = '-') = true)
    (hsp : ∀ c ∈ s.toList, c ≠ ' ')
    (hlen : s.toList.length ≤ 100) :
    sanitize_filename s = String.mk (s.toList.map Char.toLower) := by
  have hmap : s.toList.map (fun c => if c = ' ' then '_' else c) = s.toList := by
    have : ∀ c ∈ s.toList, (fun c => if c = ' ' then '_' else c) c = id c := by
      intro c hc
      simp [hsp c hc]
    rw [List.map_congr_left this, List.map_id]
  simp only [sanitize_filename]
  rw [hmap, List.filter_eq_self.mpr hk, List.take_of_length_le hlen]

/-! ## Round-trip lemmas for the persistence records -/

theorem romVersion_from_to_dict (rv : RomVersion) (h : rv.internal_file_id ≠ "") :
    RomVersion.from_dict rv.to_dict = rv := by
  simp [RomVersion.from_dict, RomVersion.to_dict, RomVersion.postInit, h]

theorem gameEntry_from_to_dict (ge : GameEntry)
    (h : ∀ rv ∈ ge.rom_versions, rv.internal_file_id ≠ "") :
    GameEntry.from_dict ge.to_dict = ge := by
  simp only [GameEntry.from_dict, GameEntry.to_dict, Option.getD_some, List.map_map]
  have : ∀ rv ∈ ge.rom_versions,
      (RomVersion.from_dict ∘ RomVersion.to_dict) rv = id rv := by
    intro rv hrv
    simp [romVersion_from_to_dict rv (h rv hrv)]
  rw [List.map_congr_left this, List.map_id]

/-! ## Shape lemmas for the catalog operations -/

theorem mem_appendFirst {es : List GameEntry} {rv : RomVersion} {ge' : GameEntry}
    (h : ge' ∈ appendVariantToFirstMatch es rv) :
    ge' ∈ es ∨ ∃ ge ∈ es, ge' = { ge with rom_versions := ge.rom_versions ++ [rv] } := by
  induction es with
  | nil => simp [appendVariantToFirstMatch] at h
  | cons ge rest ih =>
    rw [appendVariantToFirstMatch] at h
    by_cases hid : ge.game_id = rv.game_id
    · rw [if_pos hid] at h
      rcases List.mem_cons.mp h with h1 | h1
      · exact Or.inr ⟨ge, List.mem_cons_self _ _, h1⟩
      · exact Or.inl (List.mem_cons_of_mem _ h1)
    · rw [if_neg hid] at h
      rcases List.mem_cons.mp h with h1 | h1
      · exact Or.inl (h1 ▸ List.mem_cons_self _ _)
      · rcases ih h1 with h2 | ⟨g, hg, hg'⟩
        · exact Or.inl (List.mem_cons_of_mem _ h2)
        · exact Or.inr ⟨g, List.mem_cons_of_mem _ hg, hg'⟩

theorem mem_add_to_database {es : List GameEntry} {rv : RomVersion}
    {eid n c p : String} {ge' : GameEntry}
    (h : ge' ∈ add_to_database es rv eid n c p) :
    ge' ∈ es ∨ (∃ ge ∈ es, ge' = { ge with rom_versions := ge.rom_versions ++ [rv] }) ∨
      ge' = { id := eid, name := n, creator := c, platform := p,
              game_id := rv.game_id, rom_versions := [rv] } := by
  unfold add_to_database at h
  by_cases hm : es.any (fun ge => ge.game_id = rv.game_id)
  · rw [if_pos hm] at h
    rcases mem_appendFirst h with h1 | h1
    · exact Or.inl h1
    · exact Or.inr (Or.inl h1)
  · rw [if_neg hm] at h
    rcases List.mem_append.mp h with h1 | h1
    · exact Or.inl h1
    · exact Or.inr (Or.inr (by simpa using h1))

theorem mem_add_new_regional {es : List GameEntry} {eid : String} {rv : RomVersion}
    {ge' : GameEntry} (h : ge' ∈ add_new_regional_rom es eid rv) :
    ge' ∈ es ∨ ∃ ge ∈ es, ge' = { ge with rom_versions := ge.rom_versions ++ [rv] } := by
  induction es with
  | nil => simp [add_new_regional_rom] at h
  | cons ge rest ih =>
    rw [add_new_regional_rom] at h
    by_cases hid : ge.id = eid
    · rw [if_pos hid] at h
      rcases List.mem_cons.mp h with h1 | h1
      · exact Or.inr ⟨ge, List.mem_cons_self _ _, h1⟩
      · exact Or.inl (List.mem_cons_of_mem _ h1)
    · rw [if_neg hid] at h
      rcases List.mem_cons.mp h with h1 | h1
      · exact Or.inl (h1 ▸ List.mem_cons_self _ _)
      · rcases ih h1 with h2 | ⟨g, hg, hg'⟩
        · exact Or.inl (List.mem_cons_of_mem _ h2)
        · exact Or.inr ⟨g, List.mem_cons_of_mem _ hg, hg'⟩

theorem mem_delete_game {es : List GameEntry} {eid : String} {ge' : GameEntry}
    (h : ge' ∈ delete_selected_game es eid) : ge' ∈ es :=
  (List.eraseP_sublist es).mem h

theorem mem_delete_variant {es : List GameEntry} {vid : String} {ge' : GameEntry}
    (h : ge' ∈ delete_selected_regional_rom es vid) :
    ge' ∈ es ∨ ∃ ge ∈ es,
      ge' = { ge with rom_versions := ge.rom_versions.eraseP (fun rv => rv.id = vid) } ∧
      (ge.rom_versions.eraseP (fun rv => rv.id = vid)).isEmpty = false := by
  induction es with
  | nil => simp [delete_selected_regional_rom] at h
  | cons ge rest ih =>
    rw [delete_selected_regional_rom] at h
    by_cases hany : ge.rom_versions.any (fun rv => rv.id = vid)
    · rw [if_pos hany] at h
      by_cases hemp : (ge.rom_versions.eraseP (fun rv => rv.id = vid)).isEmpty
      · rw [if_pos hemp] at h
        exact Or.inl (List.mem_cons_of_mem _ h)
      · rw [if_neg hemp] at h
        rcases List.mem_cons.mp h with h1 | h1
        · exact Or.inr ⟨ge, List.mem_cons_self _ _, h1, by simpa using hemp⟩
        · exact Or.inl (List.mem_cons_of_mem _ h1)
    · rw [if_neg hany] at h
      rcases List.mem_cons.mp h with h1 | h1
      · exact Or.inl (h1 ▸ List.mem_cons_self _ _)
      · rcases ih h1 with h2 | ⟨g, hg, hg'⟩
        · exact Or.inl (List.mem_cons_of_mem _ h2)
        · exact Or.inr ⟨g, List.mem_cons_of_mem _ hg, hg'⟩

theorem length_updateFirstVariant (vs : List RomVersion) (vid : String)
    (f : RomVersion → RomVersion) : (updateFirstVariant vs vid f).length = vs.length := by
  induction vs with
  | nil => rfl
  | cons rv rest ih =>
    rw [updateFirstVariant]
    by_cases hid : rv.id = vid
    · rw [if_pos hid]
      simp
    · rw [if_neg hid]
      simpa using ih

theorem mem_updateFirstVariant {vs : List RomVersion} {vid : String}
    {f : RomVersion → RomVersion} {rv' : RomVersion}
    (h : rv' ∈ updateFirstVariant vs vid f) : rv' ∈ vs ∨ ∃ rv ∈ vs, rv' = f rv := by
  induction vs with
  | nil => simp [updateFirstVariant] at h
  | cons rv rest ih =>
    rw [updateFirstVariant] at h
    by_cases hid : rv.id = vid
    · rw [if_pos hid] at h
      rcases List.mem_cons.mp h with h1 | h1
      · exact Or.inr ⟨rv, List.mem_cons_self _ _, h1⟩
      · exact Or.inl (List.mem_cons_of_mem _ h1)
    · rw [if_neg hid] at h
      rcases List.mem_cons.mp h with h1 | h1
      · exact Or.inl (h1 ▸ List.mem_cons_self _ _)
      · rcases ih h1 with h2 | ⟨g, hg, hg'⟩
        · exact Or.inl (List.mem_cons_of_mem _ h2)
        · exact Or.inr ⟨g, List.mem_cons_of_mem _ hg, hg'⟩

theorem mem_edit_variant {es : List GameEntry} {vid r v i : String} {ge' : GameEntry}
    (h : ge' ∈ edit_selected_regional_rom es vid r v i) :
    ge' ∈ es ∨ ∃ ge ∈ es,
      ge' = { ge with rom_versions := updateFirstVariant ge.rom_versions vid (editUpdate r v i) } := by
  induction es with
  | nil => simp [edit_selected_regional_rom] at h
  | cons ge rest ih =>
    rw [edit_selected_regional_rom] at h
    by_cases hany : ge.rom_versions.any (fun rv => rv.id = vid)
    · rw [if_pos hany] at h
      rcases List.mem_cons.mp h with h1 | h1
      · exact Or.inr ⟨ge, List.mem_cons_self _ _, h1⟩
      · exact Or.inl (List.mem_cons_of_mem _ h1)
    · rw [if_neg hany] at h
      rcases List.mem_cons.mp h with h1 | h1
      · exact Or.inl (h1 ▸ List.mem_cons_self _ _)
      · rcases ih h1 with h2 | ⟨g, hg, hg'⟩
        · exact Or.inl (List.mem_cons_of_mem _ h2)
        · exact Or.inr ⟨g, List.mem_cons_of_mem _ hg, hg'⟩

theorem length_runVariants (env : RepackEnv) (vs : List RomVersion) (ab : Bool) :
    (runVariants env vs ab).1.length = vs.length := by
  induction vs generalizing ab with
  | nil => cases ab <;> rfl
  | cons rv rest ih =>
    cases ab with
    | true => simp [runVariants]
    | false =>
      have hlen : (runVariants env rest false).1.length = rest.length := ih false
      rw [runVariants]
      by_cases h1 : qualifiesForRepack env rv
      · by_cases h2 : env.existsAtPack (osBasename rv.filename)
        · by_cases h3 : env.packOk rv.internal_file_id
          · simp [h1, h2, h3, hlen]
          · simp [h1, h2, h3]
        · simp [h1, h2, hlen]
      · simp [h1, hlen]

theorem mem_runVariants {env : RepackEnv} {vs : List RomVersion} {ab : Bool} {rv' : RomVersion}
    (h : rv' ∈ (runVariants env vs ab).1) :
    rv' ∈ vs ∨ ∃ rv ∈ vs, rv' = repackOne env rv := by
  induction vs generalizing ab with
  | nil =>
    cases ab <;> simp [runVariants] at h
  | cons rv rest ih =>
    cases ab with
    | true =>
      simp only [runVariants, if_pos rfl] at h
      rcases List.mem_cons.mp h with h1 | h1
      · exact Or.inl (h1 ▸ List.mem_cons_self _ _)
      · exact Or.inl (List.mem_cons_of_mem _ h1)
    | false =>
      have hrec : rv' ∈ (runVariants env rest false).1 →
          rv' ∈ rest ∨ ∃ g ∈ rest, rv' = repackOne env g := @ih false
      rw [runVariants] at h
      by_cases h1 : qualifiesForRepack env rv
      · by_cases h2 : env.existsAtPack (osBasename rv.filename)
        · by_cases h3 : env.packOk rv.internal_file_id
          · rw [if_neg (by simp), if_pos h1, if_pos h2, if_pos h3] at h
            rcases List.mem_cons.mp h with h4 | h4
            · exact Or.inr ⟨rv, List.mem_cons_self _ _, h4⟩
            · rcases hrec h4 with h5 | ⟨g, hg, hg'⟩
              · exact Or.inl (List.mem_cons_of_mem _ h5)
              · exact Or.inr ⟨g, List.mem_cons_of_mem _ hg, hg'⟩
          · rw [if_neg (by simp), if_pos h1, if_pos h2, if_neg h3] at h
            rcases List.mem_cons.mp h with h4 | h4
            · exact Or.inl (h4 ▸ List.mem_cons_self _ _)
            · exact Or.inl (List.mem_cons_of_mem _ h4)
        · rw [if_neg (by simp), if_pos h1, if_neg h2] at h
          rcases List.mem_cons.mp h with h4 | h4
          · exact Or.inl (h4 ▸ List.mem_cons_self _ _)
          · rcases hrec h4 with h5 | ⟨g, hg, hg'⟩
            · exact Or.inl (List.mem_cons_of_mem _ h5)
            · exact Or.inr ⟨g, List.mem_cons_of_mem _ hg, hg'⟩
      · rw [if_neg (by simp), if_neg h1] at h
        rcases List.mem_cons.mp h with h4 | h4
        · exact Or.inl (h4 ▸ List.mem_cons_self _ _)
        · rcases hrec h4 with h5 | ⟨g, hg, hg'⟩
          · exact Or.inl (List.mem_cons_of_mem _ h5)
          · exact Or.inr ⟨g, List.mem_cons_of_mem _ hg, hg'⟩

theorem mem_worker_run {env : RepackEnv} {es : List GameEntry} {ab : Bool} {ge' : GameEntry}
    (h : ge' ∈ (CompressionWorker.run env es ab).1) :
    ∃ ge ∈ es, ∃ ab2 : Bool,
      ge' = { ge with rom_versions := (runVariants env ge.rom_versions ab2).1 } := by
  induction es generalizing ab with
  | nil => simp [CompressionWorker.run] at h
  | cons ge rest ih =>
    rw [CompressionWorker.run] at h
    rcases List.mem_cons.mp h with h1 | h1
    · exact ⟨ge, List.mem_cons_self _ _, ab, h1⟩
    · rcases @ih (runVariants env ge.rom_versions ab).2.2 h1 with ⟨g, hg, ab2, hg'⟩
      exact ⟨g, List.mem_cons_of_mem _ hg, ab2, hg'⟩

/-! ## Invariants along reachable catalogs -/

theorem buildIngestVariant_internal_file_id
    (uuid region version game_id er irf rrp zf fs cover : String) :
    (buildIngestVariant uuid region version game_id er irf rrp zf fs cover).internal_file_id =
      sanitize_filename (game_id ++ "_" ++ region ++ "_" ++ strTake uuid 8) := by
  simp [buildIngestVariant, RomVersion.postInit]

theorem buildIngestVariant_key_ne_empty
    (uuid region version game_id er irf rrp zf fs cover : String) :
    (buildIngestVariant uuid region version game_id er irf rrp zf fs cover).internal_file_id ≠ "" := by
  rw [buildIngestVariant_internal_file_id]
  apply sanitize_ne_empty
  have hmem : '_' ∈ ("_" : String).toList := by decide
  simp [toList_append, List.mem_append, hmem]

theorem repackOne_internal_file_id (env : RepackEnv) (rv : RomVersion) :
    (repackOne env rv).internal_file_id = rv.internal_file_id := rfl

theorem editUpdate_internal_file_id (r v i : String) (rv : RomVersion) :
    (editUpdate r v i rv).internal_file_id = rv.internal_file_id := rfl

theorem reachable_keys_nonempty {es : List GameEntry} (h : Reachable es) :
    ∀ ge ∈ es, ∀ rv ∈ ge.rom_versions, rv.internal_file_id ≠ "" := by
  induction h with
  | empty =>
    intro ge hge
    simp at hge
  | ingest uuid region version game_id er irf rrp zf fs cover eid n c p _ ih =>
    intro ge hge rv hrv
    rcases mem_add_to_database hge with h1 | ⟨g, hg, hg'⟩ | h1
    · exact ih ge h1 rv hrv
    · subst hg'
      rcases List.mem_append.mp hrv with h2 | h2
      · exact ih g hg rv h2
      · have h3 : rv = buildIngestVariant uuid region version game_id er irf rrp zf fs cover := by
          simpa using h2
        rw [h3]
        exact buildIngestVariant_key_ne_empty _ _ _ _ _ _ _ _ _ _
    · subst h1
      have h3 : rv = buildIngestVariant uuid region version game_id er irf rrp zf fs cover := by
        simpa using hrv
      rw [h3]
      exact buildIngestVariant_key_ne_empty _ _ _ _ _ _ _ _ _ _
  | addRegional eid uuid region version game_id er irf rrp zf fs cover _ ih =>
    intro ge hge rv hrv
    rcases mem_add_new_regional hge with h1 | ⟨g, hg, hg'⟩
    · exact ih ge h1 rv hrv
    · subst hg'
      rcases List.mem_append.mp hrv with h2 | h2
      · exact ih g hg rv h2
      · have h3 : rv = buildIngestVariant uuid region version game_id er irf rrp zf fs cover := by
          simpa using h2
        rw [h3]
        exact buildIngestVariant_key_ne_empty _ _ _ _ _ _ _ _ _ _
  | deleteGame eid _ ih =>
    intro ge hge rv hrv
    exact ih ge (mem_delete_game hge) rv hrv
  | deleteVariant vid _ ih =>
    intro ge hge rv hrv
    rcases mem_delete_variant hge with h1 | ⟨g, hg, hg', _⟩
    · exact ih ge h1 rv hrv
    · subst hg'
      exact ih g hg rv ((List.eraseP_sublist _).mem hrv)
  | editVariant vid r v i _ ih =>
    intro ge hge rv hrv
    rcases mem_edit_variant hge with h1 | ⟨g, hg, hg'⟩
    · exact ih ge h1 rv hrv
    · subst hg'
      rcases mem_updateFirstVariant hrv with h2 | ⟨rv0, hrv0, hrv0'⟩
      · exact ih g hg rv h2
      · rw [hrv0', editUpdate_internal_file_id]
        exact ih g hg rv0 hrv0
  | repack env _ ih =>
    intro ge hge rv hrv
    rcases mem_worker_run hge with ⟨g, hg, ab2, hg'⟩
    subst hg'
    rcases mem_runVariants hrv with h2 | ⟨rv0, hrv0, hrv0'⟩
    · exact ih g hg rv h2
    · rw [hrv0', repackOne_internal_file_id]
      exact ih g hg rv0 hrv0

theorem reachable_entries_nonempty {es : List GameEntry} (h : Reachable es) :
    ∀ ge ∈ es, ge.rom_versions ≠ [] := by
  induction h with
  | empty =>
    intro ge hge
    simp at hge
  | ingest uuid region version game_id er irf rrp zf fs cover eid n c p _ ih =>
    intro ge hge
    rcases mem_add_to_database hge with h1 | ⟨g, hg, hg'⟩ | h1
    · exact ih ge h1
    · subst hg'
      simp
    · subst h1
      simp
  | addRegional eid uuid region version game_id er irf rrp zf fs cover _ ih =>
    intro ge hge
    rcases mem_add_new_regional hge with h1 | ⟨g, hg, hg'⟩
    · exact ih ge h1
    · subst hg'
      simp
  | deleteGame eid _ ih =>
    intro ge hge
    exact ih ge (mem_delete_game hge)
  | deleteVariant vid _ ih =>
    intro ge hge
    rcases mem_delete_variant hge with h1 | ⟨g, hg, hg', hne⟩
    · exact ih ge h1
    · subst hg'
      simpa [List.isEmpty_iff] using hne
  | editVariant vid r v i _ ih =>
    intro ge hge
    rcases mem_edit_variant hge with h1 | ⟨g, hg, hg'⟩
    · exact ih ge h1
    · subst hg'
      have hlen := length_updateFirstVariant g.rom_versions vid (editUpdate r v i)
      have hne := ih g hg
      intro hcon
      apply hne
      have : g.rom_versions.length = 0 := by
        rw [← hlen]
        simpa using congrArg List.length hcon
      exact List.length_eq_zero.mp this
  | repack env _ ih =>
    intro ge hge
    rcases mem_worker_run hge with ⟨g, hg, ab2, hg'⟩
    subst hg'
    have hlen := length_runVariants env g.rom_versions ab2
    have hne := ih g hg
    intro hcon
    apply hne
    have : g.rom_versions.length = 0 := by
      rw [← hlen]
      simpa using congrArg List.length hcon
    exact List.length_eq_zero.mp this

/-! ## Exception-free bulk repack -/

theorem runVariants_no_fail (env : RepackEnv) (vs : List RomVersion)
    (H : ∀ rv ∈ vs, qualifiesForRepack env rv = true → env.packOk rv.internal_file_id = true) :
    runVariants env vs false =
      (vs.map (repackResultVariant env), (vs.filter (packsCleanly env)).length, false) := by
  induction vs with
  | nil => rfl
  | cons rv rest ih =>
    have Hrest : ∀ g ∈ rest, qualifiesForRepack env g = true →
        env.packOk g.internal_file_id = true :=
      fun g hg => H g (List.mem_cons_of_mem _ hg)
    have ihr := ih Hrest
    rw [runVariants]
    by_cases h1 : qualifiesForRepack env rv
    · have h3 : env.packOk rv.internal_file_id = true := H rv (List.mem_cons_self _ _) h1
      by_cases h2 : env.existsAtPack (osBasename rv.filename)
      · rw [if_neg (by simp), if_pos h1, if_pos h2, if_pos h3, ihr]
        have hp : packsCleanly env rv = true := by
          simp [packsCleanly, h1, h2]
        simp [repackResultVariant, hp, List.filter_cons, Nat.add_comm]
      · have hp : packsCleanly env rv = false := by
          simp [packsCleanly, h2]
        rw [if_neg (by simp), if_pos h1, if_neg h2, ihr]
        simp [repackResultVariant, hp, List.filter_cons]
    · have hp : packsCleanly env rv = false := by
        simp [packsCleanly, h1]
      rw [if_neg (by simp), if_neg h1, ihr]
      simp [repackResultVariant, hp, List.filter_cons]

theorem worker_run_no_fail (env : RepackEnv) (es : List GameEntry)
    (H : ∀ ge ∈ es, ∀ rv ∈ ge.rom_versions, qualifiesForRepack env rv = true →
        env.packOk rv.internal_file_id = true) :
    CompressionWorker.run env es false =
      (repackResultEntries env es, packableTotal env es, false) := by
  induction es with
  | nil => rfl
  | cons ge rest ih =>
    have hv := runVariants_no_fail env ge.rom_versions (H ge (List.mem_cons_self _ _))
    have ihr := ih (fun g hg => H g (List.mem_cons_of_mem _ hg))
    rw [CompressionWorker.run]
    rw [hv]
    simp only []
    rw [ihr]
    simp [repackResultEntries, packableTotal]

/-! ## Region table agreement with the spec -/

theorem region_lookup_eq_spec_table (c : Char) :
    (game_id_region_map.lookup c).getD "ANY" = spec_region_table c := by
  by_cases hA : c = 'A'; · subst hA; rfl
  by_cases hB : c = 'B'; · subst hB; rfl
  by_cases hC : c = 'C'; · subst hC; rfl
  by_cases hD : c = 'D'; · subst hD; rfl
  by_cases hE : c = 'E'; · subst hE; rfl
  by_cases hF : c = 'F'; · subst hF; rfl
  by_cases hG : c = 'G'; · subst hG; rfl
  by_cases hH : c = 'H'; · subst hH; rfl
  by_cases hI : c = 'I'; · subst hI; rfl
  by_cases hJ : c = 'J'; · subst hJ; rfl
  by_cases hK : c = 'K'; · subst hK; rfl
  by_cases hL : c = 'L'; · subst hL; rfl
  by_cases hM : c = 'M'; · subst hM; rfl
  by_cases hN : c = 'N'; · subst hN; rfl
  by_cases hO : c = 'O'; · subst hO; rfl
  by_cases hP : c = 'P'; · subst hP; rfl
  by_cases hQ : c = 'Q'; · subst hQ; rfl
  by_cases hR : c = 'R'; · subst hR; rfl
  by_cases hS : c = 'S'; · subst hS; rfl
  by_cases hT : c = 'T'; · subst hT; rfl
  by_cases hU : c = 'U'; · subst hU; rfl
  by_cases hV : c = 'V'; · subst hV; rfl
  by_cases hW : c = 'W'; · subst hW; rfl
  by_cases hX : c = 'X'; · subst hX; rfl
  by_cases hY : c = 'Y'; · subst hY; rfl
  by_cases hZ : c = 'Z'; · subst hZ; rfl
  have hlook : game_id_region_map.lookup c = none := by
    simp [game_id_region_map, List.lookup,
      beq_eq_false_iff_ne.mpr hA, beq_eq_false_iff_ne.mpr hB, beq_eq_false_iff_ne.mpr hC,
      beq_eq_false_iff_ne.mpr hD, beq_eq_false_iff_ne.mpr hE, beq_eq_false_iff_ne.mpr hF,
      beq_eq_false_iff_ne.mpr hG, beq_eq_false_iff_ne.mpr hH, beq_eq_false_iff_ne.mpr hI,
      beq_eq_false_iff_ne.mpr hJ, beq_eq_false_iff_ne.mpr hK, beq_eq_false_iff_ne.mpr hL,
      beq_eq_false_iff_ne.mpr hM, beq_eq_false_iff_ne.mpr hN, beq_eq_false_iff_ne.mpr hO,
      beq_eq_false_iff_ne.mpr hP, beq_eq_false_iff_ne.mpr hQ, beq_eq_false_iff_ne.mpr hR,
      beq_eq_false_iff_ne.mpr hS, beq_eq_false_iff_ne.mpr hT, beq_eq_false_iff_ne.mpr hU,
      beq_eq_false_iff_ne.mpr hV, beq_eq_false_iff_ne.mpr hW, beq_eq_false_iff_ne.mpr hX,
      beq_eq_false_iff_ne.mpr hY, beq_eq_false_iff_ne.mpr hZ]
  rw [hlook]
  simp [spec_region_table, hA, hB, hC, hD, hE, hF, hG, hH, hI, hJ, hK, hL, hM, hN, hO,
    hP, hQ, hR, hS, hT, hU, hV, hW, hX, hY, hZ]

/-! ## Header parser lemmas -/

theorem asciiDecodeIgnore_ascii (bs : List Nat) :
    ∀ c ∈ (asciiDecodeIgnore bs).toList, c.toNat < 128 := by
  intro c hc
  rw [asciiDecodeIgnore, toList_mk] at hc
  obtain ⟨b, hb, hbc⟩ := List.mem_map.mp hc
  have hblt : b < 128 := by
    have := (List.mem_filter.mp hb).2
    simpa using this
  rw [← hbc, toNat_ofNat_of_lt (by omega)]
  exact hblt

theorem stripNul_subset {s : String} : ∀ c ∈ (stripNul s).toList, c ∈ s.toList := by
  intro c hc
  rw [stripNul, toList_mk] at hc
  have h1 : c ∈ (s.toList.dropWhile (fun c => c = '\x00')).reverse.dropWhile
      (fun c => c = '\x00') := by
    simpa using hc
  have h2 := List.Sublist.mem h1 (List.dropWhile_sublist _)
  have h3 : c ∈ s.toList.dropWhile (fun c => c = '\x00') := by
    simpa using h2
  exact List.Sublist.mem h3 (List.dropWhile_sublist _)

theorem extract_info_isOk (bs : List Nat) (fn : String) :
    (extract_info bs fn).isOk = decide (0x1F ≤ bs.length) := by
  have htake : (bs.take 0x200)[0x1E]? = bs[0x1E]? := by
    rw [List.getElem?_take]
    simp
  simp only [extract_info, htake]
  rcases h : bs[(0x1E : Nat)]? with _ | b
  · have hlen : bs.length ≤ 0x1E := List.getElem?_eq_none_iff.mp h
    have : ¬ (0x1F ≤ bs.length) := by omega
    simp [Except.isOk, Except.toBool, this]
  · have hlen : (0x1E : Nat) < bs.length := by
      rcases List.getElem?_eq_some.mp h with ⟨hh, _⟩
      exact hh
    have : (0x1F : Nat) ≤ bs.length := by omega
    simp [Except.isOk, Except.toBool, this]

theorem extract_info_game_id_ascii {bs : List Nat} {fn : String} {info : NDSInfo}
    (h : extract_info bs fn = .ok info) : ∀ c ∈ info.game_id.toList, c.toNat < 128 := by
  have hg : info.game_id = stripNul (asciiDecodeIgnore (((bs.take 0x200).drop 0x0C).take 4)) := by
    simp only [extract_info] at h
    rcases hx : (bs.take 0x200)[(0x1E : Nat)]? with _ | b
    · rw [hx] at h
      simp at h
    · rw [hx] at h
      simp at h
      rw [← h]
  intro c hc
  rw [hg] at hc
  exact asciiDecodeIgnore_ascii _ c (stripNul_subset c hc)

theorem extract_info_maker_ascii {bs : List Nat} {fn : String} {info : NDSInfo}
    (h : extract_info bs fn = .ok info) : ∀ c ∈ info.maker_code.toList, c.toNat < 128 := by
  have hg : info.maker_code = stripNul (asciiDecodeIgnore (((bs.take 0x200).drop 0x12).take 2)) := by
    simp only [extract_info] at h
    rcases hx : (bs.take 0x200)[(0x1E : Nat)]? with _ | b
    · rw [hx] at h
      simp at h
    · rw [hx] at h
      simp at h
      rw [← h]
  intro c hc
  rw [hg] at hc
  exact asciiDecodeIgnore_ascii _ c (stripNul_subset c hc)

/-! ## Archive lemmas -/

theorem selectLargest_error {l : List ZipEntry} {best : Option (String × List Nat)}
    (h : ∃ e ∈ l, ∃ msg, e.content = .error msg) :
    ∃ msg, selectLargest l best = .error msg := by
  induction l generalizing best with
  | nil => simp at h
  | cons e rest ih =>
    rw [selectLargest]
    rcases hc : e.content with msg | bytes
    · exact ⟨msg, rfl⟩
    · obtain ⟨e', he', msg, hmsg⟩ := h
      rcases List.mem_cons.mp he' with h1 | h1
      · rw [h1, hc] at hmsg
        exact absurd hmsg (by simp)
      · exact ih ⟨e', h1, msg, hmsg⟩

/-! ## Cover search lemmas -/

theorem search_none_of_all_miss (headOk : String → Bool) (gid : String)
    (H : ∀ lang ∈ lang_order gid, headOk (gametdb_url lang gid) = false) :
    search_gametdb_cover headOk gid = none := by
  unfold search_gametdb_cover
  by_cases hg : gid = ""
  · rw [if_pos hg]
  · rw [if_neg hg]
    have hfind : (lang_order gid).find? (fun lang => headOk (gametdb_url lang gid)) = none :=
      List.find?_eq_none.mpr (fun l hl => by simp [H l hl])
    rw [hfind]
    rfl

theorem search_some_iff_first (headOk : String → Bool) (gid u : String) (hne : gid ≠ "") :
    search_gametdb_cover headOk gid = some u ↔
      ∃ lang pre post, lang_order gid = pre ++ lang :: post ∧ u = gametdb_url lang gid ∧
        headOk (gametdb_url lang gid) = true ∧
        ∀ l ∈ pre, headOk (gametdb_url l gid) = false := by
  unfold search_gametdb_cover
  rw [if_neg hne]
  constructor
  · intro h
    obtain ⟨lang, hfind, hu⟩ := Option.map_eq_some'.mp h
    obtain ⟨hp, pre, post, hsplit, hprior⟩ := List.find?_eq_some.mp hfind
    exact ⟨lang, pre, post, hsplit, hu.symm, hp, fun l hl => by simpa using hprior l hl⟩
  · rintro ⟨lang, pre, post, hsplit, hu, hok, hpre⟩
    have hfind : (lang_order gid).find? (fun lang => headOk (gametdb_url lang gid)) = some lang :=
      List.find?_eq_some.mpr ⟨hok, pre, post, hsplit, fun a ha => by simp [hpre a ha]⟩
    rw [hfind]
    simp [hu]

/-! ## Ingestion lemmas -/

theorem appendFirst_characterization {es : List GameEntry} {rv : RomVersion}
    (h : ∃ ge ∈ es, ge.game_id = rv.game_id) :
    ∃ pre ge post, es = pre ++ ge :: post ∧ ge.game_id = rv.game_id ∧
      (∀ g ∈ pre, g.game_id ≠ rv.game_id) ∧
      appendVariantToFirstMatch es rv =
        pre ++ ({ ge with rom_versions := ge.rom_versions ++ [rv] }) :: post := by
  induction es with
  | nil => simp at h
  | cons ge rest ih =>
    by_cases hid : ge.game_id = rv.game_id
    · refine ⟨[], ge, rest, rfl, hid, by simp, ?_⟩
      rw [appendVariantToFirstMatch, if_pos hid]
      rfl
    · have h' : ∃ g ∈ rest, g.game_id = rv.game_id := by
        obtain ⟨g, hg, hgid⟩ := h
        rcases List.mem_cons.mp hg with h1 | h1
        · exact absurd (h1 ▸ hgid) hid
        · exact ⟨g, h1, hgid⟩
      obtain ⟨pre, g, post, hsplit, hgid, hpre, heq⟩ := ih h'
      refine ⟨ge :: pre, g, post, by simp [hsplit], hgid, ?_, ?_⟩
      · intro x hx
        rcases List.mem_cons.mp hx with h1 | h1
        · rw [h1]
          exact hid
        · exact hpre x h1
      · rw [appendVariantToFirstMatch, if_neg hid, heq]
        rfl

theorem add_contains_variant (es : List GameEntry) (rv : RomVersion)
    (eid n c p : String) :
    ∃ ge ∈ add_to_database es rv eid n c p, rv ∈ ge.rom_versions := by
  unfold add_to_database
  by_cases hm : es.any (fun ge => ge.game_id = rv.game_id)
  · rw [if_pos hm]
    have hex : ∃ ge ∈ es, ge.game_id = rv.game_id := by
      obtain ⟨ge, hge, hid⟩ := List.any_eq_true.mp hm
      exact ⟨ge, hge, by simpa using hid⟩
    obtain ⟨pre, ge, post, _, _, _, heq⟩ := appendFirst_characterization hex
    refine ⟨{ ge with rom_versions := ge.rom_versions ++ [rv] }, ?_, by simp⟩
    rw [heq]
    exact List.mem_append.mpr (Or.inr (List.mem_cons_self _ _))
  · rw [if_neg hm]
    exact ⟨_, List.mem_append.mpr (Or.inr (List.mem_cons_self _ _)), by simp⟩

/-! ## Variant deletion lemmas -/

theorem delete_variant_characterization {pre : List GameEntry} {ge : GameEntry}
    {post : List GameEntry} {vid : String}
    (hpre : ∀ g ∈ pre, ∀ rv ∈ g.rom_versions, rv.id ≠ vid)
    (hin : ∃ rv ∈ ge.rom_versions, rv.id = vid) :
    delete_selected_regional_rom (pre ++ ge :: post) vid =
      if (ge.rom_versions.eraseP (fun rv => rv.id = vid)).isEmpty then pre ++ post
      else pre ++ ({ ge with rom_versions :=
        ge.rom_versions.eraseP (fun rv => rv.id = vid) }) :: post := by
  induction pre with
  | nil =>
    simp only [List.nil_append]
    rw [delete_selected_regional_rom]
    have hany : ge.rom_versions.any (fun rv => rv.id = vid) = true := by
      rw [List.any_eq_true]
      obtain ⟨rv, hrv, hid⟩ := hin
      exact ⟨rv, hrv, by simp [hid]⟩
    rw [if_pos hany]
  | cons g rest ih =>
    have hgany : g.rom_versions.any (fun rv => rv.id = vid) = false := by
      rw [List.any_eq_false]
      intro rv hrv
      simp [hpre g (List.mem_cons_self _ _) rv hrv]
    simp only [List.cons_append]
    rw [delete_selected_regional_rom, if_neg (by simp [hgany])]
    rw [ih (fun x hx => hpre x (List.mem_cons_of_mem _ hx))]
    by_cases hemp : (ge.rom_versions.eraseP (fun rv => rv.id = vid)).isEmpty
    · rw [if_pos hemp, if_pos hemp]
    · rw [if_neg hemp, if_neg hemp]

/-! ## Artifact key lemmas -/

theorem hex_toLower {c : Char} (h : c ∈ uuidHexChars) : c.toLower = c := by
  simp only [uuidHexChars, List.mem_cons, List.not_mem_nil, or_false] at h
  rcases h with rfl | rfl | rfl | rfl | rfl | rfl | rfl | rfl | rfl | rfl | rfl | rfl |
    rfl | rfl | rfl | rfl
  all_goals decide

theorem hex_kept {c : Char} (h : c ∈ uuidHexChars) :
    (pyIsWordChar c || c = '.' || c = '-') = true ∧ c ≠ ' ' := by
  simp only [uuidHexChars, List.mem_cons, List.not_mem_nil, or_false] at h
  rcases h with rfl | rfl | rfl | rfl | rfl | rfl | rfl | rfl | rfl | rfl | rfl | rfl |
    rfl | rfl | rfl | rfl
  all_goals decide

theorem sanitize_toList_of_all_kept {s : String}
    (hk : ∀ c ∈ s.toList, (pyIsWordChar c || c = '.' || c = '-') = true)
    (hsp : ∀ c ∈ s.toList, c ≠ ' ')
    (hlen : s.toList.length ≤ 100) :
    (sanitize_filename s).toList = s.toList.map Char.toLower := by
  rw [sanitize_of_all_kept hk hsp hlen, toList_mk]

theorem sanitize_cpue_pattern (region w : String)
    (hreg : region ∈ regionComboOptions)
    (hhex : ∀ c ∈ w.toList, c ∈ uuidHexChars)
    (hwlen : w.toList.length ≤ 8) :
    sanitize_filename ("CPUE" ++ "_" ++ region ++ "_" ++ w) =
      "cpue_" ++ strLower region ++ "_" ++ w := by
  have hCl : ("CPUE" ++ "_" ++ region ++ "_" ++ w).toList =
      ['C', 'P', 'U', 'E', '_'] ++ (region.toList ++ ('_' :: w.toList)) := by
    have h1 : "CPUE".toList = ['C', 'P', 'U', 'E'] := by decide
    have h2 : "_".toList = ['_'] := by decide
    simp [toList_append, h1, h2]
  have hregcases : region = "ANY" ∨ region = "EUR" ∨ region = "USA" ∨ region = "JPN" ∨
      region = "CHI" ∨ region = "AUS" := by
    simpa [regionComboOptions] using hreg
  have hregk : ∀ c ∈ region.toList, (pyIsWordChar c || c = '.' || c = '-') = true ∧ c ≠ ' ' := by
    rcases hregcases with rfl | rfl | rfl | rfl | rfl | rfl
    all_goals decide
  have hreglen : region.toList.length ≤ 3 := by
    rcases hregcases with rfl | rfl | rfl | rfl | rfl | rfl
    all_goals decide
  have hk : ∀ c ∈ ("CPUE" ++ "_" ++ region ++ "_" ++ w).toList,
      (pyIsWordChar c || c = '.' || c = '-') = true := by
    intro c hc
    rw [hCl] at hc
    rcases List.mem_append.mp hc with h1 | h1
    · simp only [List.mem_cons, List.not_mem_nil, or_false] at h1
      rcases h1 with rfl | rfl | rfl | rfl | rfl
      all_goals decide
    · rcases List.mem_append.mp h1 with h2 | h2
      · exact (hregk c h2).1
      · rcases List.mem_cons.mp h2 with h3 | h3
        · subst h3; decide
        · exact (hex_kept (hhex c h3)).1
  have hsp : ∀ c ∈ ("CPUE" ++ "_" ++ region ++ "_" ++ w).toList, c ≠ ' ' := by
    intro c hc
    rw [hCl] at hc
    rcases List.mem_append.mp hc with h1 | h1
    · simp only [List.mem_cons, List.not_mem_nil, or_false] at h1
      rcases h1 with rfl | rfl | rfl | rfl | rfl
      all_goals decide
    · rcases List.mem_append.mp h1 with h2 | h2
      · exact (hregk c h2).2
      · rcases List.mem_cons.mp h2 with h3 | h3
        · subst h3; decide
        · exact (hex_kept (hhex c h3)).2
  have hlen : ("CPUE" ++ "_" ++ region ++ "_" ++ w).toList.length ≤ 100 := by
    rw [hCl]
    have e1 : region.length = region.toList.length := rfl
    have e2 : w.length = w.toList.length := rfl
    simp
    omega
  apply String.ext_iff.mpr
  have hdata : (sanitize_filename ("CPUE" ++ "_" ++ region ++ "_" ++ w)).toList =
      ("CPUE" ++ "_" ++ region ++ "_" ++ w).toList.map Char.toLower :=
    sanitize_toList_of_all_kept hk hsp hlen
  have hwfix : w.toList.map Char.toLower = w.toList := by
    have : ∀ c ∈ w.toList, Char.toLower c = id c := by
      intro c hc
      simpa using hex_toLower (hhex c hc)
    rw [List.map_congr_left this, List.map_id]
  have hrhs : ("cpue_" ++ strLower region ++ "_" ++ w).toList =
      ['c', 'p', 'u', 'e', '_'] ++ (region.toList.map Char.toLower ++ ('_' :: w.toList)) := by
    have h1 : "cpue_".toList = ['c', 'p', 'u', 'e', '_'] := by decide
    have h2 : "_".toList = ['_'] := by decide
    simp [toList_append, h1, h2, strLower, toList_mk]
  show (sanitize_filename _).data = _
  have hu : Char.toLower '_' = '_' := by decide
  have hfive : (['C', 'P', 'U', 'E', '_'].map Char.toLower) = ['c', 'p', 'u', 'e', '_'] := by
    decide
  calc (sanitize_filename ("CPUE" ++ "_" ++ region ++ "_" ++ w)).data
      = ("CPUE" ++ "_" ++ region ++ "_" ++ w).toList.map Char.toLower := hdata
    _ = ['c', 'p', 'u', 'e', '_'] ++ (region.toList.map Char.toLower ++ ('_' :: w.toList)) := by
        rw [hCl, List.map_append, List.map_append, hfive, List.map_cons, hu, hwfix]
    _ = ("cpue_" ++ strLower region ++ "_" ++ w).data := hrhs.symm

/-! ## Claim theorems -/

/-- C1 (counterexample): with two qualifying legacy variants of which the
first fails to pack (N = 2, M = 1), the batch does not finish having
packed N − M = 1 variants: the exception aborts the loop, zero variants
are packed, the worker reports failure, and the second variant — which
would have packed fine — is left unprocessed. -/
theorem C1_counterexample :
    qualifiesForRepack failFirstEnv legacyVariantA = true ∧
    qualifiesForRepack failFirstEnv legacyVariantB = true ∧
    failFirstEnv.existsAtPack (osBasename legacyVariantA.filename) = true ∧
    failFirstEnv.existsAtPack (osBasename legacyVariantB.filename) = true ∧
    failFirstEnv.packOk legacyVariantA.internal_file_id = false ∧
    failFirstEnv.packOk legacyVariantB.internal_file_id = true ∧
    bulk_repack failFirstEnv [legacyEntry] = ([legacyEntry], 0, false) ∧
    (bulk_repack failFirstEnv [legacyEntry]).2.1 ≠ 2 - 1 := by
  refine ⟨by decide, by decide, by decide, by decide, by decide, by decide, by decide, by decide⟩

/-- C1 (amended): a qualifying variant whose legacy file has disappeared
by pack time is skipped and the batch continues; when no pack raises, the
batch finishes successfully having packed exactly the qualifying variants
whose legacy file was still present, leaving every other variant's
metadata untouched; but an exception while packing a variant aborts the
rest of the batch: the failing variant and all variants after it are left
untouched and the worker reports failure. -/
theorem C1_repack_batch :
    (∀ env es,
      (∀ ge ∈ es, ∀ rv ∈ ge.rom_versions, qualifiesForRepack env rv = true →
          env.packOk rv.internal_file_id = true) →
      bulk_repack env es = (repackResultEntries env es, packableTotal env es, true))
  ∧ (∀ env rv rest, qualifiesForRepack env rv = true →
      env.existsAtPack (osBasename rv.filename) = false →
      runVariants env (rv :: rest) false =
        (rv :: (runVariants env rest false).1, (runVariants env rest false).2.1,
          (runVariants env rest false).2.2))
  ∧ (∀ env rv rest, qualifiesForRepack env rv = true →
      env.existsAtPack (osBasename rv.filename) = true →
      env.packOk rv.internal_file_id = false →
      runVariants env (rv :: rest) false = (rv :: rest, 0, true)) := by
  refine ⟨?_, ?_, ?_⟩
  · intro env es H
    unfold bulk_repack
    rw [worker_run_no_fail env es H]
    rfl
  · intro env rv rest h1 h2
    rw [runVariants, if_neg (by simp), if_pos h1, if_neg (by simp [h2])]
  · intro env rv rest h1 h2 h3
    rw [runVariants, if_neg (by simp), if_pos h1, if_pos h2, if_neg (by simp [h3])]

theorem C1_witness :
    bulk_repack skipSecondEnv [legacyEntry] =
      (repackResultEntries skipSecondEnv [legacyEntry],
        packableTotal skipSecondEnv [legacyEntry], true) :=
  C1_repack_batch.1 skipSecondEnv [legacyEntry] (by decide)

/-- C2 (counterexample): a 100-byte file — shorter than 0x200 bytes —
parses successfully, so the parser does not fail on every truncated
input. -/
theorem C2_counterexample :
    (List.replicate 100 0).length < 0x200 ∧
    (extract_info (List.replicate 100 0) "game.nds").isOk = true :=
  ⟨by decide, by decide⟩

/-- C2 (amended): the parser raises (an uncaught `IndexError` reading the
version byte at offset 0x1E) exactly for inputs shorter than 0x1F bytes;
every longer input, including every truncated one in [0x1F, 0x200),
parses successfully.  Cosmetic decode issues are never fatal: the
`ascii`/`ignore` decode silently drops non-ASCII bytes, so the decoded
game id and maker code consist of ASCII characters only. -/
theorem C2_header_truncation :
    (∀ (bs : List Nat) (fn : String),
      (extract_info bs fn).isOk = decide (0x1F ≤ bs.length))
  ∧ (∀ (bs : List Nat) (fn : String) (info : NDSInfo), extract_info bs fn = .ok info →
      (∀ c ∈ info.game_id.toList, c.toNat < 128) ∧
      (∀ c ∈ info.maker_code.toList, c.toNat < 128)) := by
  refine ⟨extract_info_isOk, ?_⟩
  intro bs fn info h
  exact ⟨extract_info_game_id_ascii h, extract_info_maker_ascii h⟩

theorem C2_witness :
    (∀ c ∈ cpueInfo.game_id.toList, c.toNat < 128) ∧
    (∀ c ∈ cpueInfo.maker_code.toList, c.toNat < 128) :=
  C2_header_truncation.2 cpueBytes "p.nds" cpueInfo (by decide)

/-- C3: region resolution yields `ANY` for every game id shorter than 4
characters; for ids of length ≥ 4 the result is a pure function of the
uppercased 4th character alone, through the fixed 26-entry table exactly
as the spec lists it (taking the spec's design-note option `Q → EUR`),
with unmapped characters defensively yielding `ANY` — stated as agreement
with `spec_resolve`, the resolver transcribed from the spec's words. -/
theorem C3_region_resolution :
    (∀ gid : String, gid.toList.length < 4 → region_from_game_id gid = "ANY")
  ∧ (∀ (g1 g2 : String) (c1 c2 : Char), g1.toList[3]? = some c1 →
      g2.toList[3]? = some c2 → c1.toUpper = c2.toUpper →
      region_from_game_id g1 = region_from_game_id g2)
  ∧ (∀ gid : String, region_from_game_id gid = spec_resolve gid) := by
  refine ⟨?_, ?_, ?_⟩
  · intro gid h
    unfold region_from_game_id
    rw [if_neg (by omega)]
  · intro g1 g2 c1 c2 h1 h2 hup
    have hl1 : 3 < g1.toList.length := (List.getElem?_eq_some.mp h1).1
    have hl2 : 3 < g2.toList.length := (List.getElem?_eq_some.mp h2).1
    unfold region_from_game_id
    rw [if_pos (by omega), if_pos (by omega), h1, h2]
    simp only []
    rw [hup]
  · intro gid
    unfold region_from_game_id spec_resolve
    by_cases h : 4 ≤ gid.toList.length
    · rw [if_pos h, if_neg (by omega)]
      have h3 : 3 < gid.toList.length := by omega
      rw [List.getElem?_eq_getElem h3]
      exact region_lookup_eq_spec_table _
    · rw [if_neg h, if_pos (by omega)]

theorem C3_witness :
    region_from_game_id "AB" = "ANY" ∧ region_from_game_id "CPUE" = "USA" :=
  ⟨C3_region_resolution.1 "AB" (by decide),
   (C3_region_resolution.2.2 "CPUE").trans (by decide)⟩

/-- C4 (counterexample): the code's candidate language order is not the
one the claim states: for game id `"AAAA"` the actual order has a 12th
candidate `" "` between `"CH"` and `"AU"` which the spec's 21-entry
fallback sequence does not contain. -/
theorem C4_counterexample :
    lang_order "AAAA" ≠ claimed_lang_order "AAAA" ∧
    lang_order "AAAA" =
      ["ANY", "EN", "US", "FR", "DE", "ES", "IT", "NL", "PT", "JA", "CH", " ", "AU",
       "SE", "DA", "NO", "FI", "TR", "KO", "ZH", "RU", "MX", "CA"] ∧
    claimed_lang_order "AAAA" =
      ["ANY", "EN", "US", "FR", "DE", "ES", "IT", "NL", "PT", "JA", "CH", "AU",
       "SE", "DA", "NO", "FI", "TR", "KO", "ZH", "RU", "MX", "CA"] :=
  ⟨by decide, by decide, by decide⟩

/-- C4 (amended): the cover query tries the candidates in exactly this
order: the primary language from the game id's uppercased 4th letter
(default `EN`), then the fallback sequence EN, US, FR, DE, ES, IT, NL,
PT, JA, CH, `" "`, AU, SE, DA, NO, FI, TR, KO, ZH, RU, MX, CA — including
the stray space entry the code carries — with duplicates removed
preserving order; the first candidate whose HEAD check succeeds wins;
when every candidate misses the result is `none` rather than an error,
and an ingestion whose cover lookup found nothing still succeeds, with
the variant's cover reference left empty. -/
theorem C4_cover_candidates :
    (∀ (gid : String) (c : Char), gid.toList[3]? = some c →
      lang_order gid =
        dedupAppend [(game_id_to_gametdb_lang_map.lookup c.toUpper).getD "EN"] fallback_langs)
  ∧ (∀ gid : String, gid.toList.length < 4 →
      lang_order gid = dedupAppend ["EN"] fallback_langs)
  ∧ (∀ (headOk : String → Bool) (gid : String),
      (∀ lang ∈ lang_order gid, headOk (gametdb_url lang gid) = false) →
      search_gametdb_cover headOk gid = none)
  ∧ (∀ (headOk : String → Bool) (gid u : String), gid ≠ "" →
      (search_gametdb_cover headOk gid = some u ↔
        ∃ lang pre post, lang_order gid = pre ++ lang :: post ∧ u = gametdb_url lang gid ∧
          headOk (gametdb_url lang gid) = true ∧
          ∀ l ∈ pre, headOk (gametdb_url l gid) = false))
  ∧ (∀ (es : List GameEntry) (uuid region version gid er irf rrp zf fs eid n c p : String),
      (buildIngestVariant uuid region version gid er irf rrp zf fs "").icon_url = "" ∧
      ∃ ge ∈ add_to_database es (buildIngestVariant uuid region version gid er irf rrp zf fs "")
          eid n c p,
        buildIngestVariant uuid region version gid er irf rrp zf fs "" ∈ ge.rom_versions) := by
  refine ⟨?_, ?_, ?_, ?_, ?_⟩
  · intro gid c h
    have hl : 3 < gid.toList.length := (List.getElem?_eq_some.mp h).1
    unfold lang_order
    rw [if_pos (by omega), h]
  · intro gid h
    unfold lang_order
    rw [if_neg (by omega)]
  · intro headOk gid H
    exact search_none_of_all_miss headOk gid H
  · intro headOk gid u hne
    exact search_some_iff_first headOk gid u hne
  · intro es uuid region version gid er irf rrp zf fs eid n c p
    exact ⟨rfl, add_contains_variant es _ eid n c p⟩

theorem C4_witness :
    search_gametdb_cover (fun _ => false) "AAAA" = none :=
  C4_cover_candidates.2.2.1 (fun _ => false) "AAAA" (fun _ _ => rfl)

/-- C5: encoding any catalog reachable through the public catalog
operations to the current JSON schema and decoding it back yields an
equal catalog — in particular every game and variant identifier is
preserved rather than regenerated. -/
theorem C5_persistence_roundtrip :
    ∀ es, Reachable es → load_database_decode (save_database es) = es := by
  intro es h
  unfold load_database_decode save_database
  rw [List.map_map]
  have hcongr : ∀ ge ∈ es, (GameEntry.from_dict ∘ GameEntry.to_dict) ge = id ge := by
    intro ge hge
    have := gameEntry_from_to_dict ge (fun rv hrv => reachable_keys_nonempty h ge hge rv hrv)
    simpa using this
  rw [List.map_congr_left hcongr, List.map_id]

theorem C5_witness :
    load_database_decode (save_database (add_to_database []
      (buildIngestVariant "aaaaaaaa-0000-0000-0000-000000000000" "USA" "1" "CPUE" "USA"
        "a.nds" "assets/roms/cpue_usa_aaaaaaaa.zip" "cpue_usa_aaaaaaaa.zip" "42" "")
      "e1" "Pokemon" "AB" "nds")) =
    add_to_database []
      (buildIngestVariant "aaaaaaaa-0000-0000-0000-000000000000" "USA" "1" "CPUE" "USA"
        "a.nds" "assets/roms/cpue_usa_aaaaaaaa.zip" "cpue_usa_aaaaaaaa.zip" "42" "")
      "e1" "Pokemon" "AB" "nds" :=
  C5_persistence_roundtrip _
    (Reachable.ingest "aaaaaaaa-0000-0000-0000-000000000000" "USA" "1" "CPUE" "USA"
      "a.nds" "assets/roms/cpue_usa_aaaaaaaa.zip" "cpue_usa_aaaaaaaa.zip" "42" ""
      "e1" "Pokemon" "AB" "nds" Reachable.empty)

/-- C6: ingesting a ROM whose game id equals an existing entry's game id
appends the new variant to the first such entry — the catalog keeps the
same number of entries and the matched entry gains the variant at the end
of its list — and in particular two ingests with the same game id
starting from an empty catalog produce one entry holding both variants,
not two entries. -/
theorem C6_dedup_by_game_id :
    (∀ es rv eid n c p, (∃ ge ∈ es, ge.game_id = rv.game_id) →
      (add_to_database es rv eid n c p).length = es.length ∧
      ∃ pre ge post, es = pre ++ ge :: post ∧ ge.game_id = rv.game_id ∧
        (∀ g ∈ pre, g.game_id ≠ rv.game_id) ∧
        add_to_database es rv eid n c p =
          pre ++ ({ ge with rom_versions := ge.rom_versions ++ [rv] }) :: post)
  ∧ (∀ (rv1 rv2 : RomVersion) (e1 n1 c1 p1 e2 n2 c2 p2 : String),
      rv1.game_id = rv2.game_id →
      add_to_database (add_to_database [] rv1 e1 n1 c1 p1) rv2 e2 n2 c2 p2 =
        [{ id := e1, name := n1, creator := c1, platform := p1,
           game_id := rv1.game_id, rom_versions := [rv1, rv2] }]) := by
  constructor
  · intro es rv eid n c p hex
    have hany : es.any (fun ge => ge.game_id = rv.game_id) = true := by
      rw [List.any_eq_true]
      obtain ⟨ge, hge, hid⟩ := hex
      exact ⟨ge, hge, by simp [hid]⟩
    obtain ⟨pre, ge, post, hsplit, hgid, hpre, heq⟩ := appendFirst_characterization hex
    constructor
    · unfold add_to_database
      rw [if_pos hany, heq, hsplit]
      simp
    · refine ⟨pre, ge, post, hsplit, hgid, hpre, ?_⟩
      unfold add_to_database
      rw [if_pos hany, heq]
  · intro rv1 rv2 e1 n1 c1 p1 e2 n2 c2 p2 hid
    have h1 : add_to_database [] rv1 e1 n1 c1 p1 =
        [{ id := e1, name := n1, creator := c1, platform := p1,
           game_id := rv1.game_id, rom_versions := [rv1] }] := by
      unfold add_to_database
      rw [if_neg (by simp)]
      rfl
    rw [h1]
    unfold add_to_database
    rw [if_pos (by simp [hid])]
    rw [appendVariantToFirstMatch, if_pos (show _ = rv2.game_id from hid)]
    rfl

theorem C6_witness :
    add_to_database (add_to_database [] legacyVariantA "e1" "Pokemon" "AB" "nds")
        legacyVariantA2 "e2" "Pokemon2" "AB" "nds" =
      [{ id := "e1", name := "Pokemon", creator := "AB", platform := "nds",
         game_id := legacyVariantA.game_id, rom_versions := [legacyVariantA, legacyVariantA2] }] :=
  C6_dedup_by_game_id.2 legacyVariantA legacyVariantA2 "e1" "Pokemon" "AB" "nds"
    "e2" "Pokemon2" "AB" "nds" (by decide)

/-- C7: removing a variant removes it from its parent entry (the first
entry holding a variant with that id), and when the parent is left with
no variants the parent entry itself is removed from the catalog;
consequently every entry present after any sequence of public catalog
operations has a non-empty variant list. -/
theorem C7_variant_removal :
    (∀ (pre : List GameEntry) (ge : GameEntry) (post : List GameEntry) (vid : String),
      (∀ g ∈ pre, ∀ rv ∈ g.rom_versions, rv.id ≠ vid) →
      (∃ rv ∈ ge.rom_versions, rv.id = vid) →
      delete_selected_regional_rom (pre ++ ge :: post) vid =
        if (ge.rom_versions.eraseP (fun rv => rv.id = vid)).isEmpty then pre ++ post
        else pre ++ ({ ge with rom_versions :=
          ge.rom_versions.eraseP (fun rv => rv.id = vid) }) :: post)
  ∧ (∀ es, Reachable es → ∀ ge ∈ es, ge.rom_versions ≠ []) :=
  ⟨fun _ _ _ _ h1 h2 => delete_variant_characterization h1 h2,
   fun _ h => reachable_entries_nonempty h⟩

theorem C7_witness :
    delete_selected_regional_rom ([] ++ legacyEntry :: [])
        "aaaaaaaa-0000-0000-0000-000000000000" =
      (if (legacyEntry.rom_versions.eraseP (fun rv => rv.id = "aaaaaaaa-0000-0000-0000-000000000000")).isEmpty
        then [] ++ []
        else [] ++ ({ legacyEntry with rom_versions := legacyEntry.rom_versions.eraseP (fun rv => rv.id = "aaaaaaaa-0000-0000-0000-000000000000") }) :: []) :=
  C7_variant_removal.1 [] legacyEntry [] "aaaaaaaa-0000-0000-0000-000000000000"
    (by simp) (by decide)

/-- C8: a variant's artifact key is the sanitization of
`"{game_id}_{region}_{first 8 characters of id}"`; sanitization of an
ASCII string is filesystem-safe — lowercase, spaces turned to
underscores, every character outside `[A-Za-z0-9_.-]` stripped, length
capped at 100 — and for a variant created with game id `"CPUE"`, a combo
region, and a `uuid4` id, the key is exactly
`cpue_{lowercased region}_{8 hex digits}`. -/
theorem C8_artifact_key :
    (∀ uuid region version gid er irf rrp zf fs cover : String,
      (buildIngestVariant uuid region version gid er irf rrp zf fs cover).internal_file_id =
        sanitize_filename (gid ++ "_" ++ region ++ "_" ++ strTake uuid 8))
  ∧ (∀ s : String, (∀ c ∈ s.toList, c.toNat < 128) →
      (∀ c ∈ (sanitize_filename s).toList,
        (c.isLower || c.isDigit || c = '_' || c = '.' || c = '-') = true) ∧
      (sanitize_filename s).toList.length ≤ 100)
  ∧ (∀ uuid region version er irf rrp zf fs cover : String,
      region ∈ regionComboOptions →
      (∀ c ∈ (strTake uuid 8).toList, c ∈ uuidHexChars) →
      (strTake uuid 8).toList.length = 8 →
      (buildIngestVariant uuid region version "CPUE" er irf rrp zf fs cover).internal_file_id =
        "cpue_" ++ strLower region ++ "_" ++ strTake uuid 8) := by
  refine ⟨buildIngestVariant_internal_file_id, ?_, ?_⟩
  · intro s _
    refine ⟨?_, sanitize_length_le s⟩
    intro c hc
    obtain ⟨d, hd, hdc⟩ := mem_sanitize hc
    rw [hdc]
    exact toLower_of_kept hd
  · intro uuid region version er irf rrp zf fs cover hreg hhex hlen
    rw [buildIngestVariant_internal_file_id]
    exact sanitize_cpue_pattern region (strTake uuid 8) hreg hhex (by omega)

theorem C8_witness :
    (buildIngestVariant "aaaaaaaa-0000-0000-0000-000000000000" "USA" "1" "CPUE" "USA"
        "a.nds" "p" "q" "42" "").internal_file_id =
      "cpue_" ++ strLower "USA" ++ "_" ++ strTake "aaaaaaaa-0000-0000-0000-000000000000" 8 :=
  C8_artifact_key.2.2 "aaaaaaaa-0000-0000-0000-000000000000" "USA" "1" "USA" "a.nds"
    "p" "q" "42" "" (by decide) (by decide) (by decide)

/-- C9: packing a ROM file under an artifact key produces a single-entry
archive holding the file's bytes under its own base filename, and
unpacking that archive returns a byte-identical copy under that preserved
name. -/
theorem C9_pack_unpack_roundtrip :
    ∀ (path : String) (content : List Nat) (key : String),
      isRomName (osBasename path) = true →
      (copy_and_zip_rom_file path content key).2.2 =
        [{ name := osBasename path, content := .ok content }] ∧
      unpack_zip_rom (.ok (copy_and_zip_rom_file path content key).2.2) =
        some (osBasename path, content) := by
  intro path content key h
  refine ⟨rfl, ?_⟩
  show unpack_zip_rom (.ok [{ name := osBasename path, content := .ok content }]) = _
  unfold unpack_zip_rom
  dsimp only
  rw [List.filter_cons_of_pos (by simpa using h), List.filter_nil]
  rw [if_neg (by simp)]
  have hsel : selectLargest [{ name := osBasename path, content := .ok content }] none =
      .ok (some (osBasename (osBasename path), content)) := rfl
  rw [hsel, osBasename_idem]

theorem C9_witness :
    (copy_and_zip_rom_file "roms/game.nds" [1, 2, 3] "cpue_usa_aaaaaaaa").2.2 =
      [{ name := osBasename "roms/game.nds", content := .ok [1, 2, 3] }] ∧
    unpack_zip_rom (.ok (copy_and_zip_rom_file "roms/game.nds" [1, 2, 3]
        "cpue_usa_aaaaaaaa").2.2) =
      some (osBasename "roms/game.nds", [1, 2, 3]) :=
  C9_pack_unpack_roundtrip "roms/game.nds" [1, 2, 3] "cpue_usa_aaaaaaaa" (by decide)

/-- C10: `unpack_zip_rom` never propagates an exception — an unreadable
or corrupt archive, and a failure during any extraction step, all produce
`None` after logging, which is exactly the result for a well-formed
archive containing no `.nds`/`.dsi` member; a caller therefore cannot
distinguish a corrupt archive from an archive with no ROM inside. -/
theorem C10_unpack_never_raises :
    (∀ msg : String, unpack_zip_rom (.error msg) = none)
  ∧ (∀ entries : List ZipEntry, (∀ e ∈ entries, isRomName e.name = false) →
      unpack_zip_rom (.ok entries) = none)
  ∧ (∀ (entries : List ZipEntry) (e : ZipEntry), e ∈ entries → isRomName e.name = true →
      (∃ msg, e.content = .error msg) → unpack_zip_rom (.ok entries) = none)
  ∧ (∀ (msg : String) (entries : List ZipEntry),
      (∀ e ∈ entries, isRomName e.name = false) →
      unpack_zip_rom (.error msg) = unpack_zip_rom (.ok entries)) := by
  have hnone : ∀ msg : String, unpack_zip_rom (.error msg) = none := fun _ => rfl
  have hnorom : ∀ entries : List ZipEntry, (∀ e ∈ entries, isRomName e.name = false) →
      unpack_zip_rom (.ok entries) = none := by
    intro entries H
    unfold unpack_zip_rom
    dsimp only
    have hfil : entries.filter (fun e => isRomName e.name) = [] := by
      rw [List.filter_eq_nil_iff]
      intro e he
      simp [H e he]
    rw [hfil]
    rfl
  refine ⟨hnone, hnorom, ?_, fun msg entries H => (hnone msg).trans (hnorom entries H).symm⟩
  intro entries e he hrom herr
  unfold unpack_zip_rom
  dsimp only
  by_cases hemp : (entries.filter (fun e => isRomName e.name)).isEmpty
  · rw [if_pos hemp]
  · rw [if_neg hemp]
    have hmem : e ∈ entries.filter (fun e => isRomName e.name) :=
      List.mem_filter.mpr ⟨he, by simp [hrom]⟩
    obtain ⟨msg, hsel⟩ := selectLargest_error ⟨e, hmem, herr⟩
    rw [hsel]

theorem C10_witness :
    unpack_zip_rom (.ok [{ name := "readme.txt", content := .ok [1] }]) = none :=
  C10_unpack_never_raises.2.1 [{ name := "readme.txt", content := .ok [1] }] (by decide)

end NDSGameDB
